import Mathlib

/-!
# Boost.js : animation scheduler, easing, transitions, events, draggable

A shallow embedding of `src/animate.js`, `src/events.js` and `src/draggable.js`.
Mutable JavaScript state becomes an explicit record that every operation
transforms; the browser (frame ticks, timers, native events) is a list of steps
fed to a `step` function.  Numbers are exact rationals.
-/

namespace Boost

/-! ## animate.js : `animate` -/

/-- Modelled from the spec: the deferred-result primitive (`defer()` imported from
`@mathigon/core`), a one-shot completion signal: the first `resolve` or `reject`
settles it and later calls change nothing. -/
inductive Signal where
  | pending
  | resolved
  | rejected
  deriving DecidableEq, Repr

/-- Calling `deferred.resolve()`. -/
def Signal.resolve : Signal → Signal
  | .pending => .resolved
  | s => s

/-- Calling `deferred.reject()`. -/
def Signal.reject : Signal → Signal
  | .pending => .rejected
  | s => s

/-- The arguments of one invocation of the `animate` callback: `callback()` of the
`duration === 0` branch, or `callback(p, dt, cancel)` of `getFrame`. -/
inductive Call where
  | noArgs
  | frame (p : ℚ) (dt : ℚ)
  deriving DecidableEq, Repr

/-- JavaScript truthiness of the `duration` argument (`none` is `undefined`). -/
def truthy : Option ℚ → Bool
  | some d => decide (d ≠ 0)
  | none => false

/-- The variables closed over by one `animate` call, the number of frames requested
from `window.requestAnimationFrame` and not yet fired, and the invocations of the
callback so far. -/
structure AnimState where
  duration : Option ℚ
  startTime : ℚ
  lastTime : ℚ
  running : Bool
  deferred : Signal
  requested : Nat
  calls : List Call
  deriving DecidableEq, Repr

/-- The handle's `cancel`: `running = false; deferred.reject()`. -/
def AnimState.cancel (s : AnimState) : AnimState :=
  { s with running := false, deferred := s.deferred.reject }

/-- The guard of `getFrame`: `running && (!duration || lastTime <= duration)`. -/
def AnimState.wantsFrame (s : AnimState) : Bool :=
  s.running && (!truthy s.duration ||
    (match s.duration with
     | some d => decide (s.lastTime ≤ d)
     | none => false))

/-- The first argument handed to the callback:
`duration ? Math.min(1, time/duration) : time`. -/
def progress (duration : Option ℚ) (time : ℚ) : ℚ :=
  match duration with
  | some d => if d ≠ 0 then min 1 (time / d) else time
  | none => time

/-- The test `duration && time >= duration`. -/
def elapsed (duration : Option ℚ) (time : ℚ) : Bool :=
  match duration with
  | some d => decide (d ≠ 0) && decide (d ≤ time)
  | none => false

/-- One run of `getFrame` when `Date.now()` reads `now`.  The callback is user code;
`cb p dt` tells whether that invocation calls the `cancel` it is handed. -/
def getFrame (cb : ℚ → ℚ → Bool) (now : ℚ) (s : AnimState) : AnimState :=
  let s1 := if s.wantsFrame then { s with requested := s.requested + 1 } else s
  let time := now - s1.startTime
  let p := progress s1.duration time
  let dt := time - s1.lastTime
  let s2 := { s1 with calls := s1.calls ++ [Call.frame p dt] }
  let s3 := if cb p dt then s2.cancel else s2
  let s4 := if elapsed s3.duration time then { s3 with deferred := s3.deferred.resolve } else s3
  { s4 with lastTime := time }

/-- The function `animate(callback, duration)`: `t0` is the clock read into `startTime`
and `t1` the clock at the first, synchronous `getFrame()`. -/
def animate (cb : ℚ → ℚ → Bool) (duration : Option ℚ) (t0 t1 : ℚ) : AnimState :=
  if duration = some 0 then
    { duration := duration, startTime := t0, lastTime := 0, running := false,
      deferred := .pending, requested := 0, calls := [Call.noArgs] }
  else
    getFrame cb t1
      { duration := duration, startTime := t0, lastTime := 0, running := true,
        deferred := .pending, requested := 0, calls := [] }

/-- What can happen to a running animation: the browser fires a requested frame at
clock `now`, or the holder of the handle calls `cancel()`. -/
inductive AnimStep where
  | frame (now : ℚ)
  | cancel
  deriving DecidableEq, Repr

/-- One step. A frame tick runs `getFrame` only when a frame request is outstanding. -/
def animStep (cb : ℚ → ℚ → Bool) (s : AnimState) : AnimStep → AnimState
  | .frame now =>
    if s.requested = 0 then s
    else getFrame cb now { s with requested := s.requested - 1 }
  | .cancel => s.cancel

/-- A schedule of steps, in order. -/
def animRun (cb : ℚ → ℚ → Bool) (s : AnimState) (steps : List AnimStep) : AnimState :=
  steps.foldl (animStep cb) s

/-! ## animate.js : `easeIn`, `ease` -/

/-- The functions and the constant of JavaScript's `Math` that `easeIn` calls, over a
number type `α` (the reals for the specification, the rationals for evaluation). -/
structure MathFns (α : Type) where
  sqrt : α → α
  cos : α → α
  sin : α → α
  exp : α → α
  pow : α → α → α
  pi : α

/-- The shape functions: `easeIn(type, t, s)`, one `case` after the other. -/
def easeIn {α : Type} [LinearOrderedField α] (M : MathFns α) (type : String) (t s : α) : α :=
  if type = "quad" then t * t
  else if type = "cubic" then t * t * t
  else if type = "quart" then t * t * t * t
  else if type = "quint" then t * t * t * t * t
  else if type = "circ" then 1 - M.sqrt (1 - t * t)
  else if type = "sine" then 1 - M.cos (t * M.pi / 2)
  else if type = "exp" then (if t ≤ 0 then 0 else M.pow 2 (10 * (t - 1)))
  else if type = "back" then
    let s1 := if s = 0 then 170158 / 100000 else s
    t * t * ((s1 + 1) * t - s1)
  else if type = "elastic" then
    -(M.pow 2 (10 * (t - 1))) *
      M.sin (((t - 1) * 2 / (if s = 0 then 3 / 10 else s) - 1 / 2) * M.pi)
  else if type = "swing" then 1 / 2 - M.cos (t * M.pi) / 2
  else if type = "spring" then 1 - (M.cos (t * (9 / 2) * M.pi) * M.exp (-t * 6))
  else if type = "bounce" then
    if t < 1 / 11 then 1 / 64 - (121 / 16) * (1 / 22 - t) * (1 / 22 - t)
    else if t < 3 / 11 then 1 / 16 - (121 / 16) * (2 / 11 - t) * (2 / 11 - t)
    else if t < 7 / 11 then 1 / 4 - (121 / 16) * (5 / 11 - t) * (5 / 11 - t)
    else 1 - (121 / 16) * (1 - t) * (1 - t)
  else t

/-- Splitting a list of characters at every occurrence of `sep`; always at least one
piece, as `String.prototype.split` with a one-character separator. -/
def splitChars (sep : Char) : List Char → List (List Char)
  | [] => [[]]
  | c :: cs =>
    if c = sep then [] :: splitChars sep cs
    else
      match splitChars sep cs with
      | [] => [[c]]
      | w :: ws => (c :: w) :: ws

/-- The call `type.split('-')`. -/
def splitDash (type : String) : List String :=
  (splitChars '-' type.toList).map String.mk

/-- The function `ease(type, t, s)`. -/
def ease {α : Type} [LinearOrderedField α] (M : MathFns α) (type : String) (t s : α) : α :=
  if t = 0 then 0
  else if t = 1 then 1
  else
    let parts := splitDash type
    let type0 := parts.headD ""
    if parts.get? 1 = some "in" then easeIn M type0 t s
    else if parts.get? 1 = some "out" then 1 - easeIn M type0 (1 - t) s
    else if t ≤ 1 / 2 then easeIn M type0 (2 * t) s / 2
    else 1 - easeIn M type0 (2 * (1 - t)) s / 2

/-- Rational stand-ins for the `Math` functions (low-order truncations), so that `ease`
can be evaluated on rationals. -/
def ratMath : MathFns ℚ where
  sqrt := fun x => (1 + x) / 2
  cos := fun x => 1 - x * x / 2
  sin := fun x => x - x * x * x / 6
  exp := fun x => 1 + x + x * x / 2
  pow := fun b e => 1 + e * (b - 1)
  pi := 355 / 113

/-! ## draggable.js : `setPosition` -/

/-- A point of the plane (`Point` of `@mathigon/fermat`), with exact coordinates. -/
structure Point where
  x : ℚ
  y : ℚ
  deriving DecidableEq, Repr

/-- Modelled from the spec: `Math.round`, the nearest integer, halves toward `+∞`. -/
def jsRound (q : ℚ) : ℤ := ⌊q + 1 / 2⌋

/-- Modelled from the spec: the clamp of `Point.clamp` (in `@mathigon/fermat`, not in this
repository), `clamp(v, lo, hi) = max(lo, min(hi, v))`. -/
def clamp (v lo hi : ℚ) : ℚ := max lo (min hi v)

/-- Modelled from the spec: the rounding of `Point.round` (in `@mathigon/fermat`),
round-to-snap `round(v / k) * k`. -/
def roundTo (v k : ℚ) : ℚ := (jsRound (v / k) : ℚ) * k

/-- The method `Point.clamp(xMin, xMax, yMin, yMax)`, coordinate by coordinate. -/
def Point.clamp (p : Point) (xMin xMax yMin yMax : ℚ) : Point :=
  ⟨Boost.clamp p.x xMin xMax, Boost.clamp p.y yMin yMax⟩

/-- The method `Point.round(inc)`, coordinate by coordinate. -/
def Point.round (p : Point) (inc : ℚ) : Point :=
  ⟨roundTo p.x inc, roundTo p.y inc⟩

/-- Modelled from the spec: the method `Point.equals` of `@mathigon/fermat`, by which
`setPosition` tells that the computed position is unchanged from the current one. -/
def Point.equals (p q : Point) : Bool := decide (p.x = q.x) && decide (p.y = q.y)

/-- The options of a `Draggable`. -/
structure Options where
  moveX : Bool
  moveY : Bool
  snap : ℚ
  useTransform : Bool
  margin : ℚ
  round : Point → Point
  responsive : Bool

/-- The constant `defaultOptions`. -/
def defaultOptions : Options where
  moveX := true
  moveY := true
  snap := 1
  useTransform := false
  margin := 0
  round := fun p => p
  responsive := false

/-- What `setPosition` does to the outside: moving the element and emitting an event. -/
inductive Effect where
  | translate (x y : ℚ)
  | css (prop : String) (px : ℚ)
  | trigger (event : String) (p : Option Point)
  deriving DecidableEq, Repr

/-- The fields of a `Draggable` and the effects it has had so far. -/
structure Draggable where
  position : Point
  options : Options
  disabled : Bool
  width : ℚ
  height : ℚ
  effects : List Effect

/-- The method `setPosition(x, y)`. -/
def Draggable.setPosition (d : Draggable) (x y : ℚ) : Draggable :=
  let m := d.options.margin
  let p0 := d.options.round
    (((Point.mk x y).clamp m (d.width - m) m (d.height - m)).round d.options.snap)
  let p1 : Point := if d.options.moveX then p0 else { p0 with x := 0 }
  let p : Point := if d.options.moveY then p1 else { p1 with y := 0 }
  if p.equals d.position then d
  else
    let moved : List Effect :=
      if d.options.useTransform then [Effect.translate p.x p.y]
      else
        (if d.options.moveX then [Effect.css "left" p.x] else []) ++
        (if d.options.moveY then [Effect.css "top" p.y] else [])
    { d with position := p, effects := d.effects ++ moved ++ [Effect.trigger "move" (some p)] }

/-- A freshly constructed `Draggable`: position `(0, 0)`, enabled, the given options and
the parent's dimensions. -/
def Draggable.new (options : Options) (width height : ℚ) : Draggable where
  position := ⟨0, 0⟩
  options := options
  disabled := false
  width := width
  height := height
  effects := []

/-! ## events.js : `pointerPosition`, `slide` -/

/-- A native pointer event as far as `slide` reads it: the mouse coordinates
(`clientX`, `clientY`), the first entry of `targetTouches` when the event has that
list, and the length of `touches` when the event has that list. -/
structure PEvent where
  client : Point
  targetTouches : Option Point
  touches : Option Nat
  deriving DecidableEq, Repr

/-- A mouse event at `(x, y)`. -/
def PEvent.mouse (x y : ℚ) : PEvent := ⟨⟨x, y⟩, none, none⟩

/-- The function `pointerPosition(e)`. -/
def pointerPosition (e : PEvent) : Point :=
  { x := match e.targetTouches with
         | some t => t.x
         | none => e.client.x
    y := match e.targetTouches with
         | some t => t.y
         | none => e.client.y }

/-- The matrix `$svg._el.getScreenCTM().inverse()`, an affine map of the plane. -/
structure Matrix6 where
  a : ℚ
  b : ℚ
  c : ℚ
  d : ℚ
  e : ℚ
  f : ℚ
  deriving DecidableEq, Repr

/-- The function `svgPointerPosn(event, $svg)`; `inv` is the inverse screen matrix of
the element and `matrixTransform` the affine map it stands for. -/
def svgPointerPosn (e : PEvent) (inv : Matrix6) : Point :=
  let posn := pointerPosition e
  { x := inv.a * posn.x + inv.c * posn.y + inv.e
    y := inv.b * posn.x + inv.d * posn.y + inv.f }

/-- One invocation of a callback of `fns`, with the list of arguments it is passed. -/
inductive SlideCall where
  | fnsStart (args : List Point)
  | fnsMove (args : List Point)
  | fnsEnd (args : List Point)
  deriving DecidableEq, Repr

/-- Which callbacks the `fns` object has (`'start' in fns`, `'move' in fns`,
`'end' in fns`). -/
structure Fns where
  hasStart : Bool
  hasMove : Bool
  hasEnd : Bool
  deriving DecidableEq, Repr

/-- The state of one `slide($el, fns)`: the flag `isAnimating`, whether `move` and `end`
are at present registered on `$body`, the callbacks handed to
`window.requestAnimationFrame` and not yet run (each closes over the event `e` of the
`move` call that made it), and the invocations of the callbacks of `fns` so far. -/
structure SlideState where
  svg : Option Matrix6
  fns : Fns
  isAnimating : Bool
  moveBound : Bool
  endBound : Bool
  frames : List PEvent
  calls : List SlideCall
  deriving DecidableEq, Repr

/-- The local `posn`: `svgPointerPosn` for an svg element, else `pointerPosition`. -/
def SlideState.posn (s : SlideState) (e : PEvent) : Point :=
  match s.svg with
  | some inv => svgPointerPosn e inv
  | none => pointerPosition e

/-- The state right after `slide($el, fns)` returns. -/
def slide (svg : Option Matrix6) (fns : Fns) : SlideState where
  svg := svg
  fns := fns
  isAnimating := false
  moveBound := false
  endBound := false
  frames := []
  calls := []

/-- The test `e.touches && e.touches.length > n`. -/
def PEvent.moreTouchesThan (e : PEvent) (n : Nat) : Bool :=
  match e.touches with
  | some k => decide (n < k)
  | none => false

/-- The inner function `start(e)`. -/
def SlideState.start (s : SlideState) (e : PEvent) : SlideState :=
  if e.moreTouchesThan 1 then s
  else
    { s with
      moveBound := s.moveBound || s.fns.hasMove
      endBound := true
      calls := if s.fns.hasStart then s.calls ++ [SlideCall.fnsStart [s.posn e]] else s.calls }

/-- The inner function `move(e)`. -/
def SlideState.move (s : SlideState) (e : PEvent) : SlideState :=
  if s.isAnimating then s
  else { s with isAnimating := true, frames := s.frames ++ [e] }

/-- The callback that `move(e)` hands to `window.requestAnimationFrame`. -/
def SlideState.moveFrame (s : SlideState) (e : PEvent) : SlideState :=
  if !s.isAnimating then s
  else { s with calls := s.calls ++ [SlideCall.fnsMove [s.posn e]], isAnimating := false }

/-- The inner function `end(e)`. -/
def SlideState.end_ (s : SlideState) (e : PEvent) : SlideState :=
  if e.moreTouchesThan 0 then s
  else
    { s with
      isAnimating := false
      moveBound := if s.fns.hasMove then false else s.moveBound
      endBound := false
      calls := if s.fns.hasEnd then s.calls ++ [SlideCall.fnsEnd []] else s.calls }

/-- What the browser delivers: a `pointerStart` on the element, a `pointerMove` or a
`pointerEnd` reaching `$body`, or an animation frame. -/
inductive SlideStep where
  | pointerStart (e : PEvent)
  | pointerMove (e : PEvent)
  | pointerEnd (e : PEvent)
  | frame
  deriving DecidableEq, Repr

/-- One step: a listener runs only while it is registered; an animation frame runs
every callback requested since the last one, in order of request. -/
def slideStep (s : SlideState) : SlideStep → SlideState
  | .pointerStart e => s.start e
  | .pointerMove e => if s.moveBound then s.move e else s
  | .pointerEnd e => if s.endBound then s.end_ e else s
  | .frame => s.frames.foldl SlideState.moveFrame { s with frames := [] }

/-- A sequence of steps, in order. -/
def slideRun (s : SlideState) (steps : List SlideStep) : SlideState :=
  steps.foldl slideStep s

/-- The `move` callback that the `Draggable` constructor gives to `slide`, called with
the arguments `args`: `posn` is `args[0]` and `start` is `args[1]`; reading `.x` of a
missing argument throws (`none`). `startPosn` is the local of that name. -/
def Draggable.onMove (d : Draggable) (startPosn : Option Point) (args : List Point) :
    Option Draggable :=
  if d.disabled then some d
  else
    match startPosn, args.get? 0, args.get? 1 with
    | some sp, some posn, some start =>
      let d1 := d.setPosition (sp.x + posn.x - start.x) (sp.y + posn.y - start.y)
      some { d1 with effects := d1.effects ++ [Effect.trigger "drag" (some d1.position)] }
    | _, _, _ => none

/-- The `end` callback that the `Draggable` constructor gives to `slide`:
`last.equals(start)` throws (`none`) when an argument is missing. -/
def Draggable.onEnd (d : Draggable) (args : List Point) : Option Draggable :=
  if d.disabled then some d
  else
    match args.get? 0, args.get? 1 with
    | some last, some start =>
      some { d with effects := d.effects ++
        [Effect.trigger (if last.equals start then "click" else "end") none] }
    | _, _ => none

/-- The number of arguments `slide` passes: one to `start` and to `move`, none to
`end`. -/
def SlideCall.arityOk : SlideCall → Bool
  | .fnsStart args => args.length == 1
  | .fnsMove args => args.length == 1
  | .fnsEnd args => args.length == 0

/-! ## animate.js : `transition`, `enter`, `exit` -/

/-- The constant `BOUNCE_IN`. -/
def BOUNCE_IN : String := "cubic-bezier(0.175, 0.885, 0.32, 1.275)"

/-- The constant `BOUNCE_OUT`. -/
def BOUNCE_OUT : String := "cubic-bezier(0.68, -0.275, 0.825, 0.115)"

/-- One value of the `properties` object: an array `[from, to]` or a single target.
Style values are strings, as the style setter stores them. -/
inductive PropVal where
  | pair (source : String) (target : String)
  | single (target : String)
  deriving DecidableEq, Repr

/-- The expression `Array.isArray(p) ? p[1] : p`. -/
def PropVal.final : PropVal → String
  | .pair _ t => t
  | .single t => t

/-- A callback registered on a completion signal with `.then`: those of `exit`
(`$el.hide()`, `$el.remove()`) and of the `draw` effect of `enter`
(`$el.css('stroke-dasharray', '')`). -/
inductive Then where
  | hide
  | remove
  | clearDash
  deriving DecidableEq, Repr

/-- The native animation player returned by `$el._el.animate`: running, or idle after
`player.cancel()`. -/
inductive Player where
  | running
  | idle
  deriving DecidableEq, Repr

/-- The closure of one `transition` call past the readiness gate: its arguments, the
objects `from` and `to`, `oldHeight`, the variables `cancelled` and `player`
(`none` is `undefined`), its `deferred` and the callbacks registered with `then`. -/
structure Handle where
  properties : List (String × PropVal)
  source : List (String × String)
  target : List (String × String)
  oldHeight : Option String
  duration : ℚ
  easing : String
  cancelled : Bool
  player : Option Player
  deferred : Signal
  thens : List Then
  deriving DecidableEq, Repr

/-- A pending timer callback: the function `transition` gives to `delay`, or the
`setTimeout` callback that stores the handle in `$el._data._animation`. -/
inductive Timer where
  | start (h : Nat)
  | setSlot (h : Nat)
  deriving DecidableEq, Repr

/-- What is done to the element, in order: a call of a handle's `cancel()`, a style
write, the creation of a native player, a `player.cancel()`, `show`, `hide`, `remove`. -/
inductive Act where
  | cancelCalled (h : Nat)
  | css (k v : String)
  | animateCall (h : Nat)
  | playerCancel (h : Nat)
  | show
  | hide
  | remove
  deriving DecidableEq, Repr

/-- The module variable `isReady`, one element `$el` (whether `$el._el` is set, its
style, its slot `$el._data._animation`, the total outer height of its children, its
`transform` and its `strokeLength`, as strings), the handles created so far (a handle
is named by its index), the pending timers and the log of what was done. -/
structure World where
  isReady : Bool
  attached : Bool
  style : List (String × String)
  animation : Option Nat
  childrenHeight : String
  transform : String
  strokeLength : String
  handles : List Handle
  timers : List Timer
  log : List Act
  deriving DecidableEq, Repr

/-- Reading a key of a JavaScript object kept as an association list. -/
def lookup {β : Type} : List (String × β) → String → Option β
  | [], _ => none
  | (k1, v) :: o, k => if k1 = k then some v else lookup o k

/-- Writing a key of a JavaScript object kept as an association list: an existing key
keeps its place, a new key goes last. -/
def assign {β : Type} : List (String × β) → String → β → List (String × β)
  | [], k, v => [(k, v)]
  | (k1, v1) :: o, k, v => if k1 = k then (k, v) :: o else (k1, v1) :: assign o k v

/-- The getter `$el.css(k)` (and `getComputedStyle($el._el).getPropertyValue(k)`): the
value of the style, empty when never set. -/
def World.getCss (w : World) (k : String) : String :=
  (lookup w.style k).getD ""

/-- The setter `$el.css(k, v)`; with an `undefined` value (`none`) the call is a read
and writes nothing. -/
def World.css (w : World) (k : String) (v : Option String) : World :=
  match v with
  | some v => { w with style := assign w.style k v, log := w.log ++ [Act.css k v] }
  | none => w

/-- Changing the closure variables of handle `h`. -/
def World.updateHandle (w : World) (h : Nat) (f : Handle → Handle) : World :=
  match w.handles.get? h with
  | some x => { w with handles := w.handles.set h (f x) }
  | none => w

/-- The call `player.cancel()` for the player of handle `h`. -/
def World.playerCancel (w : World) (h : Nat) : World :=
  { w.updateHandle h (fun x => { x with player := some Player.idle }) with
    log := w.log ++ [Act.playerCancel h] }

/-- The method `cancel()` of the `animation` object of handle `h`:
`cancelled = true`, freeze every property at its current value, cancel the player. -/
def World.cancel (w : World) (h : Nat) : World :=
  match w.handles.get? h with
  | none => w
  | some hd =>
    let w1 : World :=
      { w.updateHandle h (fun x => { x with cancelled := true }) with
        log := w.log ++ [Act.cancelCalled h] }
    let w2 : World :=
      if w1.attached then
        hd.properties.foldl (fun (u : World) kp => u.css kp.1 (some (u.getCss kp.1))) w1
      else w1
    match hd.player with
    | some _ => w2.playerCancel h
    | none => w2

/-- Modelled from the spec: the case-convention converter `toCamelCase` of
`@mathigon/core` (hyphenated to camel identifier), on characters. -/
def camelChars : List Char → List Char
  | [] => []
  | '-' :: c :: cs => c.toUpper :: camelChars cs
  | c :: cs => c :: camelChars cs

/-- Modelled from the spec: `toCamelCase(k)`. -/
def toCamelCase (k : String) : String := String.mk (camelChars k.toList)

/-- The function `transition` gives to `delay`:
`if (cancelled) return; player = $el._el.animate(...)`. -/
def World.startPlayer (w : World) (h : Nat) : World :=
  match w.handles.get? h with
  | none => w
  | some hd =>
    if hd.cancelled then w
    else
      { w.updateHandle h (fun x => { x with player := some Player.running }) with
        log := w.log ++ [Act.animateCall h] }

/-- Modelled from the spec: `delay(fn, t)` of `@mathigon/core`, a one-shot deferred
start: with a delay the function waits on a timer, without one it runs at once. -/
def World.delay (w : World) (h : Nat) (t : ℚ) : World :=
  if t ≠ 0 then { w with timers := w.timers ++ [Timer.start h] }
  else w.startPlayer h

/-- What `transition`, `enter` and `exit` return: nothing (`undefined`), an already
resolved promise, or the `animation` object of handle `h`. -/
inductive Ret where
  | undefined
  | promise
  | handle (h : Nat)
  deriving DecidableEq, Repr

/-- The body of the `forEach` of `transition` for one property `k`: fill `from` and `to`
and, with a delay, set the initial style. -/
def transitionProp (_delay : ℚ)
    (acc : World × List (String × String) × List (String × String)) (kp : String × PropVal) :
    World × List (String × String) × List (String × String) :=
  let w := acc.1
  let k1 := toCamelCase kp.1
  let src : String :=
    match kp.2 with
    | .pair a _ => a
    | .single _ => w.getCss kp.1
  let source := assign acc.2.1 k1 src
  let target := assign acc.2.2 k1 kp.2.final
  (if _delay ≠ 0 then w.css kp.1 (lookup source k1) else w, source, target)

/-- The end of `transition`, from `let player; let cancelled = false;` on: the closure
`hd` of the call gets the next free name, `delay` starts the player or queues its start,
and a `setTimeout` callback is queued that will store the handle in the slot. -/
def World.launch (w : World) (hd : Handle) (_delay : ℚ) : World :=
  let h := w.handles.length
  let w3 : World := { w with handles := w.handles ++ [hd] }
  let w4 := w3.delay h _delay
  { w4 with timers := w4.timers ++ [Timer.setSlot h] }

/-- The function `transition($el, properties, duration, _delay, easing)`. -/
def transition (w : World) (properties : List (String × PropVal)) (duration _delay : ℚ)
    (easing : String) : World × Ret :=
  if !w.isReady then
    (properties.foldl (fun (u : World) kp => u.css kp.1 (some kp.2.final)) w, Ret.promise)
  else
    let easing1 := if easing = "bounce-in" then BOUNCE_IN else easing
    let easing2 := if easing1 = "bounce-out" then BOUNCE_OUT else easing1
    let w1 : World :=
      match w.animation with
      | some prev => w.cancel prev
      | none => w
    let r := properties.foldl (transitionProp _delay) (w1, [], [])
    let w2 := r.1
    let oldHeight := lookup r.2.2 "height"
    let target :=
      if oldHeight = some "auto" then assign r.2.2 "height" (w2.childrenHeight ++ "px")
      else r.2.2
    (w2.launch
      { properties := properties, source := r.2.1, target := target,
        oldHeight := oldHeight, duration := duration, easing := easing2,
        cancelled := false, player := none, deferred := Signal.pending, thens := [] } _delay,
     Ret.handle w2.handles.length)

/-- The method `$el.hide()`. -/
def World.hide (w : World) : World :=
  { w with style := assign w.style "display" "none", log := w.log ++ [Act.hide] }

/-- The method `$el.remove()`. -/
def World.remove (w : World) : World :=
  { w with attached := false, log := w.log ++ [Act.remove] }

/-- Running one callback registered with `then`. -/
def World.runThen (w : World) : Then → World
  | .hide => w.hide
  | .remove => w.remove
  | .clearDash => w.css "stroke-dasharray" (some "")

/-- The handler `player.onfinish` of handle `h`, followed by the callbacks waiting on
its completion signal when this call is the one that resolves it. -/
def World.onfinish (w : World) (h : Nat) : World :=
  match w.handles.get? h with
  | none => w
  | some hd =>
    let w1 : World :=
      if w.attached then
        hd.properties.foldl
          (fun (u : World) kp =>
            u.css kp.1 (if kp.1 = "height" then hd.oldHeight else lookup hd.target kp.1)) w
      else w
    let w2 := w1.updateHandle h (fun x => { x with deferred := x.deferred.resolve })
    let w3 := w2.playerCancel h
    if hd.deferred = Signal.pending then hd.thens.foldl World.runThen w3 else w3

/-- A handle is active while it is neither finished nor cancelled. -/
def Handle.active (hd : Handle) : Bool :=
  !hd.cancelled && decide (hd.deferred = Signal.pending)

/-- Whether the handle named `h` exists and is active. -/
def World.isActive (w : World) (h : Nat) : Bool :=
  match w.handles.get? h with
  | some hd => hd.active
  | none => false

/-- The active handles of the element, by name. -/
def World.activeHandles (w : World) : List Nat :=
  (List.range w.handles.length).filter w.isActive

/-- Whether a `setTimeout` callback that will store a handle in the slot is pending. -/
def World.slotPending (w : World) : Bool :=
  w.timers.any (fun t => match t with
    | Timer.setSlot _ => true
    | Timer.start _ => false)

/-- The browser and the callers of `transition`, one step at a time: a `transition`
call, the firing of the `i`-th pending timer, the native finish event of the player of
handle `h`, a call of `cancel()` on handle `h` by whoever holds it, and the timer of the
module that opens the readiness gate. -/
inductive TStep where
  | transition (properties : List (String × PropVal)) (duration _delay : ℚ) (easing : String)
  | timer (i : Nat)
  | finish (h : Nat)
  | cancel (h : Nat)
  | ready
  deriving DecidableEq, Repr

/-- One step.  A finish event exists only for a running player. -/
def tStep (w : World) : TStep → World
  | .transition p d dl e => (transition w p d dl e).1
  | .timer i =>
    match w.timers.get? i with
    | none => w
    | some (Timer.start h) => World.startPlayer { w with timers := w.timers.eraseIdx i } h
    | some (Timer.setSlot h) => { w with timers := w.timers.eraseIdx i, animation := some h }
  | .finish h =>
    match w.handles.get? h with
    | some hd => if hd.player = some Player.running then w.onfinish h else w
    | none => w
  | .cancel h => w.cancel h
  | .ready => { w with isReady := true }

/-- A sequence of steps, in order. -/
def tRun (w : World) (steps : List TStep) : World :=
  steps.foldl tStep w

/-- An element on which nothing has happened yet. -/
def World.fresh (isReady : Bool) (transform strokeLength childrenHeight : String) : World where
  isReady := isReady
  attached := true
  style := []
  animation := none
  childrenHeight := childrenHeight
  transform := transform
  strokeLength := strokeLength
  handles := []
  timers := []
  log := []

/-- The test `s.startsWith(pre)`. -/
def startsWith (s pre : String) : Bool := pre.toList.isPrefixOf s.toList

/-- The test `s.includes(part)`. -/
def includes (s part : String) : Bool := decide (part.toList <:+: s.toList)

/-- A character of the class `[0-9.]`. -/
def isScaleChar (c : Char) : Bool := c.isDigit || c == '.'

/-- The replacement `.replace(/scale\([0-9.]*\)/, '')` on characters: the leftmost match
is removed. -/
def stripScaleChars : List Char → List Char
  | [] => []
  | c :: cs =>
    if "scale(".toList.isPrefixOf (c :: cs) then
      match ((c :: cs).drop 6).dropWhile isScaleChar with
      | ')' :: tl => tl
      | _ => c :: stripScaleChars cs
    else c :: stripScaleChars cs

/-- The replacement `.replace(/scale\([0-9.]*\)/, '')`. -/
def stripScale (s : String) : String := String.mk (stripScaleChars s.toList)

/-- A character of the class `[0-9.\-\s]`. -/
def isMatrixChar (c : Char) : Bool := c.isDigit || c == '.' || c == '-' || c.isWhitespace

/-- Reading `n` comma-separated groups `[0-9.\-\s]+`. -/
def matchGroups : Nat → List Char → Option (List (List Char) × List Char)
  | 0, cs => some ([], cs)
  | n + 1, cs =>
    let g := cs.takeWhile isMatrixChar
    let rest := cs.dropWhile isMatrixChar
    if g = [] then none
    else if n = 0 then some ([g], rest)
    else
      match rest with
      | ',' :: tl => (matchGroups n tl).map (fun r => (g :: r.1, r.2))
      | _ => none

/-- A match of the regular expression `cssMatrix` at the head of the characters: the
groups `$1` and `$2` and what follows the match. -/
def matchMatrix (cs : List Char) : Option (List Char × List Char × List Char) :=
  if "matrix(".toList.isPrefixOf cs then
    match matchGroups 6 (cs.drop 7) with
    | some ([_, _, _, _, e, f], ')' :: tl) => some (e, f, tl)
    | _ => none
  else none

/-- The replacement `.replace(cssMatrix, 'translate($1px,$2px)')` on characters. -/
def expandMatrixChars : List Char → List Char
  | [] => []
  | c :: cs =>
    match matchMatrix (c :: cs) with
    | some (e, f, tl) => "translate(".toList ++ e ++ "px,".toList ++ f ++ "px)".toList ++ tl
    | none => c :: expandMatrixChars cs

/-- The replacement `.replace(cssMatrix, 'translate($1px,$2px)')`. -/
def expandMatrix (s : String) : String := String.mk (expandMatrixChars s.toList)

/-- The method `$el.show()`. -/
def World.show (w : World) : World :=
  { w with style := assign w.style "display" "", log := w.log ++ [Act.show] }

/-- Registering a callback with `.then` on what `transition` returned: on a handle it
waits for the completion signal, on a resolved promise it runs. -/
def World.thenDo (w : World) (r : Ret) (t : Then) : World :=
  match r with
  | .handle h => w.updateHandle h (fun x => { x with thens := x.thens ++ [t] })
  | .promise => w.runThen t
  | .undefined => w

/-- The function `enter($el, effect, duration, _delay)`.  The `draw` branch returns the
promise made by `.then`, which is no handle. -/
def enter (w : World) (effect : String) (duration _delay : ℚ) : World × Ret :=
  let w0 := w.show
  if !w0.isReady then (w0, Ret.promise)
  else if effect = "fade" then
    transition w0 [("opacity", .pair "0" "1")] duration _delay "ease-in-out"
  else if effect = "pop" then
    let tr := expandMatrix (stripScale w0.transform)
    let w1 := (transition w0 [("opacity", .pair "0" "1")] duration _delay "ease-in-out").1
    transition w1 [("transform", .pair (tr ++ " scale(0.5)") (tr ++ " scale(1)"))]
      duration _delay "bounce-in"
  else if effect = "descend" then
    transition w0 [("opacity", .pair "0" "1"), ("transform", .pair "translateY(-50%)" "none")]
      duration _delay "ease-in-out"
  else if startsWith effect "draw" then
    let l := w0.strokeLength ++ "px"
    let w1 := (w0.css "opacity" (some "1")).css "stroke-dasharray" (some l)
    let start := if effect = "draw-reverse" then "-" ++ l else l
    let r := transition w1 [("stroke-dashoffset", .pair start "0")] duration _delay "linear"
    (r.1.thenDo r.2 Then.clearDash, Ret.promise)
  else if startsWith effect "slide" then
    transition w0
      [("opacity", .pair "0" "1"),
       ("transform",
         .pair (if includes effect "down" then "translateY(-50px)" else "translateY(50px)")
           "none")]
      duration _delay "ease-in-out"
  else if startsWith effect "reveal" then
    transition w0
      ([("opacity", .pair "0" "1"), ("height", .pair "0" "auto")] ++
        (if includes effect "right" then [("transform", PropVal.pair "translateX(50%)" "none")]
         else if includes effect "left" then
           [("transform", PropVal.pair "translateX(-50%)" "none")]
         else []))
      duration _delay "ease-in-out"
  else (w0, Ret.undefined)

/-- An exception thrown by the JavaScript engine. -/
inductive JsError where
  | typeError
  deriving DecidableEq, Repr

deriving instance DecidableEq for Except

/-- The part of `exit` that picks the effect and leaves the result in the variable
`animation` (`Ret.undefined` while no branch has assigned it). -/
def exitAnimation (w : World) (effect : String) (duration delay : ℚ) : World × Ret :=
  if effect = "fade" then
    transition w [("opacity", .pair "1" "0")] duration delay "ease-in-out"
  else if effect = "pop" then
    let tr := stripScale w.transform
    let w1 := (transition w [("opacity", .pair "1" "0")] duration delay "ease-in-out").1
    transition w1 [("transform", .pair (tr ++ " scale(1)") (tr ++ " scale(0.5)"))]
      duration delay "bounce-out"
  else if effect = "ascend" then
    transition w [("opacity", .pair "1" "0"), ("transform", .pair "none" "translateY(-50%)")]
      duration delay "ease-in-out"
  else if startsWith effect "draw" then
    let l := w.strokeLength ++ "px"
    let w1 := w.css "stroke-dasharray" (some l)
    let stop := if effect = "draw-reverse" then "-" ++ l else l
    transition w1 [("stroke-dashoffset", .pair "0" stop)] duration delay "linear"
  else if startsWith effect "slide" then
    transition w
      [("opacity", .single "0"),
       ("transform",
         .single (if includes effect "up" then "translateY(-50px)" else "translateY(50px)"))]
      duration delay "ease-in-out"
  else if startsWith effect "reveal" then
    transition w
      ([("opacity", .single "0"), ("height", .single "0")] ++
        (if includes effect "right" then [("transform", PropVal.single "translateX(50%)")]
         else if includes effect "left" then [("transform", PropVal.single "translateX(-50%)")]
         else []))
      duration delay "ease-in-out"
  else (w, Ret.undefined)

/-- The function `exit($el, effect, duration, delay, remove)`.  The last statements are
`animation.then(...)` and `return animation`; reading `then` of `undefined` throws. -/
def exit (w : World) (effect : String) (duration delay : ℚ) (remove : Bool) :
    Except JsError (World × Ret) :=
  if !w.attached then .ok (w, Ret.promise)
  else if !w.isReady then .ok (w.hide, Ret.promise)
  else if w.getCss "display" = "none" then .ok (w, Ret.promise)
  else
    let r := exitAnimation w effect duration delay
    match r.2 with
    | .undefined => .error JsError.typeError
    | ret => .ok (r.1.thenDo ret (if remove then Then.remove else Then.hide), ret)

/-- The effect names for which `exit` has a branch. -/
def exitRecognises (effect : String) : Bool :=
  effect = "fade" || effect = "pop" || effect = "ascend" || startsWith effect "draw" ||
    startsWith effect "slide" || startsWith effect "reveal"

/-- The effect names for which `enter` has a branch. -/
def enterRecognises (effect : String) : Bool :=
  effect = "fade" || effect = "pop" || effect = "descend" || startsWith effect "draw" ||
    startsWith effect "slide" || startsWith effect "reveal"

/-- A schedule in which every `transition` call is made when no slot timer is pending:
the turn that started the previous transition has ended and its timer has run. -/
def spaced : World → List TStep → Bool
  | _, [] => true
  | w, st :: rest =>
    (match st with
      | TStep.transition _ _ _ _ => !w.slotPending
      | _ => true) && spaced (tStep w st) rest

/-! ## events.js : `createEvent` -/

/-- A value stored in `$el._events`: the list of handlers of an event name (a handler is
named by a number, its identity), or the `true` of the flags `_click` and
`_clickOutside`, which the setup functions keep in the same object. -/
inductive Entry where
  | flag
  | fns (handlers : List Nat)
  deriving DecidableEq, Repr

/-- A function given to `addEventListener`: a handler of the caller, or a closure
created by one of the setup functions. -/
inductive Listener where
  | handler (fn : Nat)
  | internal (name : String)
  deriving DecidableEq, Repr

/-- The state of an element that `createEvent` reads and writes: `$el._events` (own
keys), the flags `_pointerEvents` and `_scrollEvents` of `$el._data`, `_isWindow`, the
native listeners installed on `$el._el`, and the registrations made on other objects
(`$body`, the parent, `window`) with the count of `fixOverflowScroll` calls. -/
structure ElState where
  events : List (String × Entry)
  pointerEvents : Bool
  scrollEvents : Bool
  isWindow : Bool
  native : List (String × Listener × Bool)
  foreign : List (String × String × String)
  fixOverflow : Nat
  deriving DecidableEq, Repr

/-- The property names that every plain object inherits from `Object.prototype`.
Reading `customEvents[event]` or testing `event in $el._events` with one of them finds the
inherited property, although the object has no such key of its own. -/
def inheritedKey (k : String) : Bool :=
  k = "constructor" || k = "toString" || k = "toLocaleString" || k = "valueOf" ||
    k = "hasOwnProperty" || k = "isPrototypeOf" || k = "propertyIsEnumerable" ||
    k = "__defineGetter__" || k = "__defineSetter__" || k = "__lookupGetter__" ||
    k = "__lookupSetter__" || k = "__proto__"

/-- What `customEvents[event]` reads: a string of native names, one of the four setup
functions, a property inherited from `Object.prototype` (a function, or for `__proto__`
the prototype object: truthy, and no string), or `undefined`. -/
inductive Custom where
  | names (natives : List String)
  | makeClickEvent
  | makeClickOutsideEvent
  | makePointerPositionEvents
  | makeScrollEvents
  | inherited
  | undefined
  deriving DecidableEq, Repr

/-- The lookup `customEvents[event]` in the object literal `customEvents`: its own keys
first (a string of space-separated native names is kept as the list of these names), then
the keys it inherits. -/
def customEvents (event : String) : Custom :=
  if event = "pointerStart" then .names ["mousedown", "touchstart"]
  else if event = "pointerMove" then .names ["mousemove", "touchmove"]
  else if event = "pointerEnd" then .names ["mouseup", "touchend", "touchcancel"]
  else if event = "change" then .names ["propertychange", "keyup", "input", "paste"]
  else if event = "scrollwheel" then .names ["DOMMouseScroll", "mousewheel"]
  else if event = "click" then .makeClickEvent
  else if event = "clickOutside" then .makeClickOutsideEvent
  else if event = "pointerEnter" then .makePointerPositionEvents
  else if event = "pointerLeave" then .makePointerPositionEvents
  else if event = "pointerOver" then .makePointerPositionEvents
  else if event = "scrollStart" then .makeScrollEvents
  else if event = "scroll" then .makeScrollEvents
  else if event = "scrollEnd" then .makeScrollEvents
  else if inheritedKey event then .inherited
  else .undefined

/-- The function `makeClickEvent($el)`; `iOS` is the test of `navigator.userAgent`. -/
def makeClickEvent (iOS : Bool) (el : ElState) : ElState :=
  if (lookup el.events "_click").isSome then el
  else
    let el1 := { el with events := assign el.events "_click" Entry.flag }
    if !iOS then
      { el1 with native := el1.native ++ [("click", Listener.internal "click", false)] }
    else
      { el1 with native := el1.native ++
          [("touchstart", Listener.internal "clickTouchStart", false),
           ("touchend", Listener.internal "clickTouchEnd", false),
           ("touchcancel", Listener.internal "clickTouchCancel", false)] }

/-- The function `makeClickOutsideEvent($el)`. -/
def makeClickOutsideEvent (el : ElState) : ElState :=
  if (lookup el.events "_clickOutside").isSome then el
  else
    { el with
      events := assign el.events "_clickOutside" Entry.flag
      foreign := el.foreign ++ [("$body", "click", "clickOutside")] }

/-- The function `makePointerPositionEvents(element)`. -/
def makePointerPositionEvents (el : ElState) : ElState :=
  if el.pointerEvents then el
  else
    { el with
      pointerEvents := true
      foreign := el.foreign ++
        [("parent", "pointerEnd", "resetInside"), ("parent", "pointerMove", "checkInside")] }

/-- The function `makeScrollEvents(element)`. -/
def makeScrollEvents (el : ElState) : ElState :=
  if el.scrollEvents then el
  else
    let el1 : ElState :=
      { el with
        scrollEvents := true
        fixOverflow := if el.isWindow then el.fixOverflow else el.fixOverflow + 1 }
    let el2 : ElState :=
      if el1.isWindow then { el1 with foreign := el1.foreign ++ [("window", "scroll", "scroll")] }
      else { el1 with native := el1.native ++ [("scroll", Listener.internal "scroll", false)] }
    { el2 with native := el2.native ++ [("touchstart", Listener.internal "touchStart", false)] }

/-- The last statement of `createEvent`: append `fn` to `$el._events[event]` unless it is
there, or start the list.  The test `event in $el._events` holds for a key of the object
and for a key it inherits; `$el._events` is made by the element wrapper (module
`elements`, not in `src`) and is taken to be a plain object.  On a flag `true` and on an
inherited property there is no `indexOf`, and the call throws (`none`). -/
def register (el : ElState) (event : String) (fn : Nat) : Option ElState :=
  match lookup el.events event with
  | some (Entry.fns l) =>
    if l.indexOf fn < l.length then some el
    else some { el with events := assign el.events event (Entry.fns (l ++ [fn])) }
  | some Entry.flag => none
  | none =>
    if inheritedKey event then none
    else some { el with events := assign el.events event (Entry.fns [fn]) }

/-- Whether the plain call `custom($el)` of a function inherited from `Object.prototype`
returns: `Object($el)` and `Object.prototype.toString` do; the other inherited functions
throw on the `undefined` receiver that a plain call has in module code, and the value of
`__proto__` is no function. -/
def inheritedCallReturns (event : String) : Bool :=
  event = "constructor" || event = "toString"

/-- The function `createEvent` for an event name that has no entry in `customEvents`:
`addEventListener` on the node and the registration. -/
def createNative (el : ElState) (event : String) (fn : Nat) (useCapture : Bool) :
    Option ElState :=
  register { el with native := el.native ++ [(event, Listener.handler fn, useCapture)] } event fn

/-- Modelled from the spec: the method `$el.on(names, fn, useCapture)` of the element
wrapper (module `elements`, not in `src`), which registers `fn` for each of the
space-separated native event names by `createEvent`; the names of the table have no
entry of their own. -/
def ElState.on (el : ElState) (names : List String) (fn : Nat) (useCapture : Bool) :
    Option ElState :=
  names.foldlM (fun e w => createNative e w fn useCapture) el

/-- The function `createEvent($el, event, fn, useCapture)`.  An inherited property is
truthy and no string, so the branch `custom($el)` is taken for it and no native listener
is added. -/
def createEvent (iOS : Bool) (el : ElState) (event : String) (fn : Nat) (useCapture : Bool) :
    Option ElState :=
  match customEvents event with
  | .names natives => (el.on natives fn useCapture).bind (fun e => register e event fn)
  | .makeClickEvent => register (makeClickEvent iOS el) event fn
  | .makeClickOutsideEvent => register (makeClickOutsideEvent el) event fn
  | .makePointerPositionEvents => register (makePointerPositionEvents el) event fn
  | .makeScrollEvents => register (makeScrollEvents el) event fn
  | .inherited => if inheritedCallReturns event then register el event fn else none
  | .undefined => createNative el event fn useCapture

/-- A sequence of `createEvent` calls, each with its event name, handler and capture
flag. -/
def createEvents (iOS : Bool) : ElState → List (String × Nat × Bool) → Option ElState
  | el, [] => some el
  | el, c :: cs => (createEvent iOS el c.1 c.2.1 c.2.2).bind (fun e => createEvents iOS e cs)

/-- The handler list `$el._events[event]` for a key of the object itself, empty when the
key is absent. -/
def ElState.handlers (el : ElState) (event : String) : List Nat :=
  match lookup el.events event with
  | some (Entry.fns l) => l
  | _ => []

/-- Modelled from the spec: the dispatch `$el.trigger(event)` of the element wrapper (not
in `src`): the handlers of the event fire in registration order; the result is the list
of handlers invoked, in order. -/
def ElState.trigger (el : ElState) (event : String) : List Nat :=
  el.handlers event

/-- The two keys of `$el._events` that hold a flag and no handler list. -/
def reserved (k : String) : Bool := k = "_click" || k = "_clickOutside"

/-- An event name that `createEvent` can register: any name but the two flag keys and the
keys that a plain object inherits. -/
def eventName (k : String) : Bool := !reserved k && !inheritedKey k

/-- An element without any event state. -/
def ElState.fresh (isWindow : Bool) : ElState where
  events := []
  pointerEvents := false
  scrollEvents := false
  isWindow := isWindow
  native := []
  foreign := []
  fixOverflow := 0

/-- Whether a `createEvent` call for `name` registers its handler in the list of key
`k`: the name itself, and the native names of a table entry. -/
def registersAt (name k : String) : Bool :=
  name = k ||
    (match customEvents name with
     | .names natives => decide (k ∈ natives)
     | _ => false)

/-- The handlers that a sequence of `createEvent` calls registers at key `k`, one per
call, in the order of the calls. -/
def registrations (k : String) (calls : List (String × Nat × Bool)) : List Nat :=
  (calls.filter (fun c => registersAt c.1 k)).map (fun c => c.2.1)

/-- Removing repetitions from a list, keeping each first occurrence. -/
def firstOccurrences (l : List Nat) : List Nat :=
  (l.reverse.dedup).reverse

/-- Appending a handler to a list unless the list has it. -/
def pushNew (l : List Nat) (fn : Nat) : List Nat :=
  if fn ∈ l then l else l ++ [fn]

/-- The shape of `$el._events` that the code keeps: the two flag keys hold nothing or a
flag, every other key holds nothing or a handler list without repetition. -/
def ElState.WF (el : ElState) : Prop :=
  ∀ k e, lookup el.events k = some e →
    (reserved k = true ∧ e = Entry.flag) ∨
      (reserved k = false ∧ ∃ l, e = Entry.fns l ∧ l.Nodup)

/-- Whether the flag that the setup function of `name` keeps in `$el._events` is set;
the other setup functions keep their flag in `$el._data`. -/
def setupDone (el : ElState) (name : String) : Bool :=
  match customEvents name with
  | .makeClickEvent => (lookup el.events "_click").isSome
  | .makeClickOutsideEvent => (lookup el.events "_clickOutside").isSome
  | _ => true

/-- The invariant of the transition slot: the gate is open, every active handle is in
the slot or waits for its slot timer, and while a slot timer waits no other handle is
active. -/
def World.Inv (w : World) : Prop :=
  w.isReady = true ∧
    (∀ h, w.isActive h = true → w.animation = some h ∨ Timer.setSlot h ∈ w.timers) ∧
    (∀ h h', Timer.setSlot h ∈ w.timers → w.isActive h' = true → h' = h)

/-- A change of the world that leaves gate, slot and timers alone, creates no handle,
makes no handle active, and only adds to the log. -/
def World.Shrinks (w w' : World) : Prop :=
  w'.isReady = w.isReady ∧ w'.animation = w.animation ∧ w'.timers = w.timers ∧
    w'.handles.length = w.handles.length ∧
    (∀ h, w'.isActive h = true → w.isActive h = true) ∧
    ∃ rest, w'.log = w.log ++ rest

/-- The shape names that have a `case` of their own in `easeIn`; every other name falls
to `default`. -/
def knownShape (type : String) : Bool :=
  type = "quad" || type = "cubic" || type = "quart" || type = "quint" || type = "circ" ||
    type = "sine" || type = "exp" || type = "back" || type = "elastic" || type = "swing" ||
    type = "spring" || type = "bounce"

/-! ## Theorems -/

/-! ### `animate` -/

/-- A rejected completion signal stays rejected through `resolve`. -/
theorem Signal.resolve_rejected : Signal.resolve .rejected = .rejected := rfl

/-- Once the completion signal is rejected, a run of `getFrame` leaves it rejected. -/
theorem getFrame_keeps_rejected (cb : ℚ → ℚ → Bool) (now : ℚ) (s : AnimState)
    (h : s.deferred = .rejected) : (getFrame cb now s).deferred = .rejected := by
  unfold getFrame
  simp only [AnimState.cancel]
  split_ifs <;> simp [h, Signal.resolve, Signal.reject]

/-- Once the completion signal is rejected, no step resolves it. -/
theorem animStep_keeps_rejected (cb : ℚ → ℚ → Bool) (s : AnimState) (st : AnimStep)
    (h : s.deferred = .rejected) : (animStep cb s st).deferred = .rejected := by
  cases st with
  | frame now =>
    unfold animStep
    split_ifs
    · exact h
    · exact getFrame_keeps_rejected cb now _ h
  | cancel => simp [animStep, AnimState.cancel, h, Signal.reject]

/-- A frame tick with a frame request outstanding invokes the callback, whatever the
flag `running` says: `getFrame` consults the flag for the next request only. -/
theorem frame_tick_invokes_callback (cb : ℚ → ℚ → Bool) (s : AnimState) (now : ℚ)
    (h : s.requested ≠ 0) :
    (animStep cb s (.frame now)).calls.length = s.calls.length + 1 := by
  simp only [animStep, h, if_false, getFrame, AnimState.cancel]
  split_ifs <;> simp

/-- Cancelling leaves an outstanding frame request outstanding. -/
theorem cancel_keeps_request (s : AnimState) :
    s.cancel.requested = s.requested ∧ s.cancel.calls = s.calls := ⟨rfl, rfl⟩

/-- Part (b) of the cancellation contract holds on the code: when `cancel()` is called
while the completion signal is still pending, the signal is rejected and stays
rejected under every later schedule of frames and cancels. -/
theorem cancel_rejects_forever (cb : ℚ → ℚ → Bool) (s : AnimState) (steps : List AnimStep)
    (h : s.deferred = .pending) : (animRun cb s.cancel steps).deferred = .rejected := by
  have h0 : s.cancel.deferred = .rejected := by simp [AnimState.cancel, h, Signal.reject]
  generalize s.cancel = s' at h0
  induction steps generalizing s' with
  | nil => exact h0
  | cons st rest ih => exact ih _ (animStep_keeps_rejected cb s' st h0)

/-- C1 (defect of the code): `animate(cb, 100)` started at clock 0, one frame at 16 ms,
then `cancel()` from outside while the frame requested by that run of `getFrame` is 
still outstanding.  The cancellation rejects the completion signal, but the outstanding
frame, fired at 32 ms, invokes the callback a third time (`getFrame` tests `running`
only before requesting a frame, not before calling the callback). -/
theorem animate_cancel_outstanding_frame_invokes_callback :
    (animRun (fun _ _ => false) (animate (fun _ _ => false) (some 100) 0 0)
        [.frame 16, .cancel]).running = false ∧
    (animRun (fun _ _ => false) (animate (fun _ _ => false) (some 100) 0 0)
        [.frame 16, .cancel]).deferred = .rejected ∧
    (animRun (fun _ _ => false) (animate (fun _ _ => false) (some 100) 0 0)
        [.frame 16, .cancel]).requested = 1 ∧
    (animRun (fun _ _ => false) (animate (fun _ _ => false) (some 100) 0 0)
        [.frame 16, .cancel]).calls = [Call.frame 0 0, Call.frame (4/25) 16] ∧
    (animRun (fun _ _ => false) (animate (fun _ _ => false) (some 100) 0 0)
        [.frame 16, .cancel, .frame 32]).calls =
      [Call.frame 0 0, Call.frame (4/25) 16, Call.frame (8/25) 16] ∧
    (animRun (fun _ _ => false) (animate (fun _ _ => false) (some 100) 0 0)
        [.frame 16, .cancel, .frame 32]).deferred = .rejected := by
  decide!

/-- C2 (defect of the code): `animate(cb, 100)` started at clock 0 with frames at 50 ms
and 100 ms.  The frame at 100 ms has elapsed time equal to the duration and resolves the
completion signal, yet a frame is still outstanding after it; that frame (116 ms) invokes
the callback again and, because the guard compares the previous frame's time
(`lastTime <= duration`), requests one more frame, which (132 ms) invokes the callback
once more. -/
theorem animate_runs_frames_after_resolving :
    (animRun (fun _ _ => false) (animate (fun _ _ => false) (some 100) 0 0)
        [.frame 50, .frame 100]).deferred = .resolved ∧
    (animRun (fun _ _ => false) (animate (fun _ _ => false) (some 100) 0 0)
        [.frame 50, .frame 100]).calls =
      [Call.frame 0 0, Call.frame (1/2) 50, Call.frame 1 50] ∧
    (animRun (fun _ _ => false) (animate (fun _ _ => false) (some 100) 0 0)
        [.frame 50, .frame 100]).requested = 1 ∧
    (animRun (fun _ _ => false) (animate (fun _ _ => false) (some 100) 0 0)
        [.frame 50, .frame 100, .frame 116]).calls =
      [Call.frame 0 0, Call.frame (1/2) 50, Call.frame 1 50, Call.frame 1 16] ∧
    (animRun (fun _ _ => false) (animate (fun _ _ => false) (some 100) 0 0)
        [.frame 50, .frame 100, .frame 116]).requested = 1 ∧
    (animRun (fun _ _ => false) (animate (fun _ _ => false) (some 100) 0 0)
        [.frame 50, .frame 100, .frame 116, .frame 132]).calls =
      [Call.frame 0 0, Call.frame (1/2) 50, Call.frame 1 50, Call.frame 1 16,
        Call.frame 1 16] ∧
    (animRun (fun _ _ => false) (animate (fun _ _ => false) (some 100) 0 0)
        [.frame 50, .frame 100, .frame 116, .frame 132]).requested = 0 := by
  decide!

/-! ### `ease` -/

/-- A piece that holds no separator is split off whole at the first separator. -/
theorem splitChars_append_sep (sep : Char) (k rest : List Char) (h : sep ∉ k) :
    splitChars sep (k ++ sep :: rest) = k :: splitChars sep rest := by
  induction k with
  | nil => simp [splitChars]
  | cons c cs ih =>
    have hc : c ≠ sep := fun e => h (by simp [e])
    have hcs : sep ∉ cs := fun e => h (by simp [e])
    simp [splitChars, hc, ih hcs]

/-- Splitting `kind + '-out'` for a shape name `kind` (no hyphen in it). -/
theorem splitDash_out (kind : String) (h : '-' ∉ kind.toList) :
    splitDash (kind ++ "-out") = [kind, "out"] := by
  have e : (kind ++ "-out").toList = kind.toList ++ '-' :: ['o', 'u', 't'] := by
    simp [String.toList, String.data_append]
  unfold splitDash
  rw [e, splitChars_append_sep '-' _ _ h]
  simp [splitChars]

/-- Splitting `kind + '-in'` for a shape name `kind` (no hyphen in it). -/
theorem splitDash_in (kind : String) (h : '-' ∉ kind.toList) :
    splitDash (kind ++ "-in") = [kind, "in"] := by
  have e : (kind ++ "-in").toList = kind.toList ++ '-' :: ['i', 'n'] := by
    simp [String.toList, String.data_append]
  unfold splitDash
  rw [e, splitChars_append_sep '-' _ _ h]
  simp [splitChars]

/-- C7: for every kind string and every overshoot `s`, `ease(kind, 0, s)` is exactly 0
and `ease(kind, 1, s)` is exactly 1; the two tests come before the kind is split and the
shape function dispatched, so the result does not depend on the `Math` functions. -/
theorem ease_endpoints {α : Type} [LinearOrderedField α] (M : MathFns α) (kind : String)
    (s : α) : ease M kind 0 s = 0 ∧ ease M kind 1 s = 1 := by
  constructor
  · simp [ease]
  · simp [ease]

/-- C8: for every shape name `kind` (a name without a hyphen, the part before the
direction suffix), every overshoot `s` and every `t` (in particular every `t` of
`[0, 1]`, endpoints included), `ease(kind + '-out', t, s)` equals
`1 - ease(kind + '-in', 1 - t, s)`, over any ordered field and any `Math` functions. -/
theorem ease_out_complement {α : Type} [LinearOrderedField α] (M : MathFns α)
    (kind : String) (hk : '-' ∉ kind.toList) (t s : α) :
    ease M (kind ++ "-out") t s = 1 - ease M (kind ++ "-in") (1 - t) s := by
  by_cases h0 : t = 0
  · subst h0
    simp [ease]
  by_cases h1 : t = 1
  · subst h1
    simp [ease]
  have h0' : (1 : α) - t ≠ 0 := fun e => h1 (by linarith)
  have h1' : (1 : α) - t ≠ 1 := fun e => h0 (by linarith)
  have ne : ("in" : String) ≠ "out" := by decide
  simp [ease, h0, h1, h0', h1', splitDash_out kind hk, splitDash_in kind hk, ne]

/-- Witness of C8 at `quad`, `t = 1/4`: both sides are `7/16`. -/
theorem ease_out_complement_witness :
    '-' ∉ "quad".toList ∧
      ease ratMath ("quad" ++ "-out") (1 / 4) 0 = 1 - ease ratMath ("quad" ++ "-in") (1 - 1 / 4) 0 :=
  ⟨by decide, ease_out_complement ratMath "quad" (by decide) (1 / 4) 0⟩

/-- Values of `ease` for the shape `quad` in its three directions and for an unknown
shape, at `t = 1/4`. -/
theorem ease_values :
    ease ratMath "quad-in" (1 / 4) 0 = 1 / 16 ∧ ease ratMath "quad-out" (1 / 4) 0 = 7 / 16 ∧
      ease ratMath "quad" (1 / 4) 0 = 1 / 8 ∧ ease ratMath "nope" (1 / 4) 0 = 1 / 4 := by
  decide!

/-- A kind that already carries a direction is no shape name: with `quad-in` for `kind`
both `kind + '-out'` and `kind + '-in'` ease in, and the two sides of the complement law
differ at `t = 1/2`. -/
theorem ease_complement_needs_shape_name :
    ease ratMath ("quad-in" ++ "-out") (1 / 2) 0 = 1 / 4 ∧
      1 - ease ratMath ("quad-in" ++ "-in") (1 - 1 / 2) 0 = 3 / 4 := by
  decide!

/-- A name that has no `case` in `easeIn` falls to `default`, which returns `t`. -/
theorem easeIn_default {α : Type} [LinearOrderedField α] (M : MathFns α) (type : String)
    (h : knownShape type = false) (t s : α) : easeIn M type t s = t := by
  simp only [knownShape, Bool.or_eq_false_iff, decide_eq_false_iff_not] at h
  obtain ⟨⟨⟨⟨⟨⟨⟨⟨⟨⟨⟨h1, h2⟩, h3⟩, h4⟩, h5⟩, h6⟩, h7⟩, h8⟩, h9⟩, h10⟩, h11⟩, h12⟩ := h
  unfold easeIn
  rw [if_neg h1, if_neg h2, if_neg h3, if_neg h4, if_neg h5, if_neg h6, if_neg h7, if_neg h8,
    if_neg h9, if_neg h10, if_neg h11, if_neg h12]

/-- A piece that holds no separator is not split. -/
theorem splitChars_no_sep (sep : Char) (k : List Char) (h : sep ∉ k) :
    splitChars sep k = [k] := by
  induction k with
  | nil => rfl
  | cons c cs ih =>
    have hc : c ≠ sep := fun e => h (by simp [e])
    have hcs : sep ∉ cs := fun e => h (by simp [e])
    simp [splitChars, hc, ih hcs]

/-- Splitting a shape name (no hyphen in it) gives the name alone. -/
theorem splitDash_plain (kind : String) (h : '-' ∉ kind.toList) : splitDash kind = [kind] := by
  unfold splitDash
  rw [splitChars_no_sep '-' _ h]
  rfl

/-- Whatever the direction, `ease` of a kind whose first piece `type[0]` has no `case` in
`easeIn` is the identity. -/
theorem ease_default_of_head {α : Type} [LinearOrderedField α] (M : MathFns α) (kind : String)
    (h : knownShape ((splitDash kind).headD "") = false) (t s : α) : ease M kind t s = t := by
  unfold ease
  by_cases h0 : t = 0
  · rw [if_pos h0, h0]
  rw [if_neg h0]
  by_cases h1 : t = 1
  · rw [if_pos h1, h1]
  rw [if_neg h1]
  simp only [easeIn_default M _ h]
  split_ifs
  · rfl
  · ring
  · ring
  · ring

/-- C11: for every shape name (a name without a hyphen, the part before the direction
suffix) that is not one of quad, cubic, quart, quint, circ, sine, exp, back, elastic,
swing, spring, bounce, for each direction (`-in`, `-out`, and none, the symmetric mode),
every overshoot `s` and every `t` (in particular every `t` of `[0, 1]`),
`ease(kind, t, s)` equals `t`, over any ordered field and any `Math` functions. -/
theorem ease_unknown_shape_identity {α : Type} [LinearOrderedField α] (M : MathFns α)
    (shape : String) (hs : '-' ∉ shape.toList) (hk : knownShape shape = false) (t s : α) :
    ease M (shape ++ "-in") t s = t ∧ ease M (shape ++ "-out") t s = t ∧
      ease M shape t s = t := by
  refine ⟨ease_default_of_head M _ ?_ t s, ease_default_of_head M _ ?_ t s,
    ease_default_of_head M _ ?_ t s⟩
  · rw [splitDash_in shape hs]; exact hk
  · rw [splitDash_out shape hs]; exact hk
  · rw [splitDash_plain shape hs]; exact hk

/-- Witness of C11 at the shape name `linear` and `t = 1/4`. -/
theorem ease_unknown_shape_identity_witness :
    '-' ∉ "linear".toList ∧ knownShape "linear" = false ∧
      ease ratMath ("linear" ++ "-in") (1 / 4) 0 = 1 / 4 ∧
      ease ratMath ("linear" ++ "-out") (1 / 4) 0 = 1 / 4 ∧
      ease ratMath "linear" (1 / 4) 0 = 1 / 4 :=
  ⟨by decide, by decide,
    ease_unknown_shape_identity ratMath "linear" (by decide) (by decide) (1 / 4) 0⟩

/-- Values of `ease` for an unknown shape in the three directions, on both sides of the
middle, and for a name with a hyphen in it, which is no shape name: `quad-x` is not one
of the twelve, yet `type[0]` is `quad`. -/
theorem ease_unknown_values :
    ease ratMath "linear-in" (3 / 4) 0 = 3 / 4 ∧ ease ratMath "linear-out" (3 / 4) 0 = 3 / 4 ∧
      ease ratMath "linear" (3 / 4) 0 = 3 / 4 ∧ ease ratMath "" (1 / 3) 0 = 1 / 3 ∧
      knownShape "quad-x" = false ∧ ease ratMath ("quad-x" ++ "-in") (1 / 4) 0 = 1 / 8 := by
  decide!

/-! ### `Draggable.setPosition` -/

/-- Round-to-snap yields an integer multiple of the snap size. -/
theorem roundTo_multiple (v k : ℚ) : ∃ n : ℤ, roundTo v k = (n : ℚ) * k :=
  ⟨jsRound (v / k), rfl⟩

/-- Round-to-snap moves a value by at most half the snap size. -/
theorem roundTo_near (v k : ℚ) (hk : 0 < k) : |roundTo v k - v| ≤ k / 2 := by
  have h1 : ((⌊v / k + 1 / 2⌋ : ℤ) : ℚ) ≤ v / k + 1 / 2 := Int.floor_le _
  have h2 : v / k + 1 / 2 < (⌊v / k + 1 / 2⌋ : ℤ) + 1 := Int.lt_floor_add_one _
  have hv : v = v / k * k := by field_simp
  unfold roundTo jsRound
  rw [abs_le]
  constructor
  · nlinarith
  · nlinarith

/-- The clamp is never below the lower bound. -/
theorem clamp_ge (v lo hi : ℚ) : lo ≤ clamp v lo hi := le_max_left _ _

/-- The clamp is at most the upper bound when the range is not empty. -/
theorem clamp_le (v lo hi : ℚ) (h : lo ≤ hi) : clamp v lo hi ≤ hi :=
  max_le h (min_le_left _ _)

/-- Round-to-snap keeps a value inside a range whose two ends are on the grid. -/
theorem roundTo_in_range (c k lo hi : ℚ) (a b : ℤ) (hk : 0 < k) (hlo : lo = (a : ℚ) * k)
    (hhi : hi = (b : ℚ) * k) (h1 : lo ≤ c) (h2 : c ≤ hi) :
    lo ≤ roundTo c k ∧ roundTo c k ≤ hi := by
  have ha : (a : ℚ) ≤ c / k := by
    rw [le_div_iff₀ hk]; rw [← hlo]; exact h1
  have hb : c / k ≤ (b : ℚ) := by
    rw [div_le_iff₀ hk]; rw [← hhi]; exact h2
  have h3 : a ≤ jsRound (c / k) := by
    unfold jsRound
    rw [Int.le_floor]
    linarith
  have h4 : jsRound (c / k) ≤ b := by
    unfold jsRound
    have : ⌊c / k + 1 / 2⌋ < b + 1 := by
      rw [Int.floor_lt]
      push_cast
      linarith
    omega
  have h3' : (a : ℚ) ≤ (jsRound (c / k) : ℚ) := by exact_mod_cast h3
  have h4' : (jsRound (c / k) : ℚ) ≤ (b : ℚ) := by exact_mod_cast h4
  unfold roundTo
  rw [hlo, hhi]
  constructor
  · exact mul_le_mul_of_nonneg_right h3' hk.le
  · exact mul_le_mul_of_nonneg_right h4' hk.le

/-- With the default round function and both axes enabled, the position stored by
`setPosition(x, y)` is the clamped and then snapped point, whether or not the early
return on an unchanged position is taken. -/
theorem setPosition_position (d : Draggable) (x y : ℚ)
    (hr : d.options.round = fun p => p) (hx : d.options.moveX = true)
    (hy : d.options.moveY = true) :
    (d.setPosition x y).position =
      ⟨roundTo (clamp x d.options.margin (d.width - d.options.margin)) d.options.snap,
       roundTo (clamp y d.options.margin (d.height - d.options.margin)) d.options.snap⟩ := by
  unfold Draggable.setPosition
  simp only [hr, hx, hy, if_true, Point.clamp, Point.round]
  split_ifs with h
  · simp only [Point.equals, Bool.and_eq_true, decide_eq_true_eq] at h
    cases hp : d.position with
    | mk px py =>
      rw [hp] at h
      simp only at h
      rw [h.1, h.2]
  all_goals rfl

/-- C5 (what fails): margin 1, snap 10, a 100 by 100 parent, `setPosition(97, 97)`.  The
clamp gives 97, inside `[1, 99]`, and snapping afterwards gives 100, above
`dimension - margin = 99`. -/
theorem setPosition_snap_leaves_range :
    ((Draggable.new { defaultOptions with margin := 1, snap := 10 } 100 100).setPosition
        97 97).position = ⟨100, 100⟩ ∧
    ¬ ((1 : ℚ) ≤ ((Draggable.new { defaultOptions with margin := 1, snap := 10 } 100
          100).setPosition 97 97).position.x ∧
        ((Draggable.new { defaultOptions with margin := 1, snap := 10 } 100
          100).setPosition 97 97).position.x ≤ 100 - 1) := by
  decide!

/-- C5 (as amended): for a `Draggable` with the default round function, both axes enabled
and snap size `k > 0`, after `setPosition(x, y)` each coordinate of the stored position
is an integer multiple of `k` and lies within `k / 2` of the clamped input
`c = max(m, min(dimension - m, v))`; `c` is at least `m`, and at most `dimension - m`
whenever `m <= dimension - m`; and when `m` and `dimension - m` are themselves integer
multiples of `k` (with `m <= dimension - m`), the stored coordinate lies in
`[m, dimension - m]`. -/
theorem setPosition_snapped_near_clamp (d : Draggable) (x y : ℚ)
    (hr : d.options.round = fun p => p) (hx : d.options.moveX = true)
    (hy : d.options.moveY = true) (hk : 0 < d.options.snap) :
    ((∃ n : ℤ, (d.setPosition x y).position.x = (n : ℚ) * d.options.snap) ∧
      |(d.setPosition x y).position.x -
          clamp x d.options.margin (d.width - d.options.margin)| ≤ d.options.snap / 2 ∧
      d.options.margin ≤ clamp x d.options.margin (d.width - d.options.margin) ∧
      (d.options.margin ≤ d.width - d.options.margin →
        clamp x d.options.margin (d.width - d.options.margin) ≤ d.width - d.options.margin) ∧
      (∀ a b : ℤ, d.options.margin = (a : ℚ) * d.options.snap →
        d.width - d.options.margin = (b : ℚ) * d.options.snap →
        d.options.margin ≤ d.width - d.options.margin →
        d.options.margin ≤ (d.setPosition x y).position.x ∧
          (d.setPosition x y).position.x ≤ d.width - d.options.margin)) ∧
    ((∃ n : ℤ, (d.setPosition x y).position.y = (n : ℚ) * d.options.snap) ∧
      |(d.setPosition x y).position.y -
          clamp y d.options.margin (d.height - d.options.margin)| ≤ d.options.snap / 2 ∧
      d.options.margin ≤ clamp y d.options.margin (d.height - d.options.margin) ∧
      (d.options.margin ≤ d.height - d.options.margin →
        clamp y d.options.margin (d.height - d.options.margin) ≤
          d.height - d.options.margin) ∧
      (∀ a b : ℤ, d.options.margin = (a : ℚ) * d.options.snap →
        d.height - d.options.margin = (b : ℚ) * d.options.snap →
        d.options.margin ≤ d.height - d.options.margin →
        d.options.margin ≤ (d.setPosition x y).position.y ∧
          (d.setPosition x y).position.y ≤ d.height - d.options.margin)) := by
  rw [setPosition_position d x y hr hx hy]
  refine ⟨⟨roundTo_multiple _ _, roundTo_near _ _ hk, clamp_ge _ _ _, clamp_le _ _ _, ?_⟩,
    ⟨roundTo_multiple _ _, roundTo_near _ _ hk, clamp_ge _ _ _, clamp_le _ _ _, ?_⟩⟩
  · intro a b ha hb hab
    exact roundTo_in_range _ _ _ _ a b hk ha hb (clamp_ge _ _ _) (clamp_le _ _ _ hab)
  · intro a b ha hb hab
    exact roundTo_in_range _ _ _ _ a b hk ha hb (clamp_ge _ _ _) (clamp_le _ _ _ hab)

/-- Witness of C5 (as amended): margin 10, snap 10, a 100 by 100 parent,
`setPosition(97, 3)` stores `(90, 10)`. -/
theorem setPosition_snapped_near_clamp_witness :
    (0 : ℚ) < (Draggable.new { defaultOptions with margin := 10, snap := 10 } 100 100).options.snap ∧
    ((Draggable.new { defaultOptions with margin := 10, snap := 10 } 100 100).setPosition
        97 3).position = ⟨90, 10⟩ ∧
    (∃ n : ℤ, ((Draggable.new { defaultOptions with margin := 10, snap := 10 } 100
        100).setPosition 97 3).position.x = (n : ℚ) * 10) :=
  ⟨by decide!, by decide!,
    (setPosition_snapped_near_clamp
      (Draggable.new { defaultOptions with margin := 10, snap := 10 } 100 100) 97 3
      rfl rfl rfl (by decide!)).1.1⟩

/-! ### `slide` -/

/-- While a frame callback is pending (`isAnimating`), `move` events change nothing. -/
theorem slideRun_moves_dropped (s : SlideState) (es : List PEvent)
    (ha : s.isAnimating = true) : slideRun s (es.map SlideStep.pointerMove) = s := by
  induction es with
  | nil => rfl
  | cons e rest ih =>
    have h1 : slideStep s (.pointerMove e) = s := by
      simp only [slideStep, SlideState.move, ha, if_true]
      split_ifs <;> rfl
    simp only [slideRun, List.map_cons, List.foldl_cons, h1]
    exact ih

/-- Running a list of steps and then one more. -/
theorem slideRun_append (s : SlideState) (xs ys : List SlideStep) :
    slideRun s (xs ++ ys) = slideRun (slideRun s xs) ys := by
  simp [slideRun, List.foldl_append]

/-- C3 (what fails): the scenario of the specification.  Start at (10,10), then moves at
(12,11) and (15,14) before the frame fires: the `move` callback is invoked once, with
(12,11), the coordinate of the first of the two events, and never with (15,14). -/
theorem slide_coalesced_move_uses_first_event :
    (slideRun (slide none ⟨true, true, true⟩)
        [.pointerStart (PEvent.mouse 10 10), .pointerMove (PEvent.mouse 12 11),
          .pointerMove (PEvent.mouse 15 14), .frame]).calls =
      [SlideCall.fnsStart [⟨10, 10⟩], SlideCall.fnsMove [⟨12, 11⟩]] ∧
    SlideCall.fnsMove [⟨15, 14⟩] ∉
      (slideRun (slide none ⟨true, true, true⟩)
        [.pointerStart (PEvent.mouse 10 10), .pointerMove (PEvent.mouse 12 11),
          .pointerMove (PEvent.mouse 15 14), .frame]).calls := by
  decide!

/-- C3 (as amended): in an active gesture with no frame callback pending, whenever one or
more native move events arrive before the next frame fires, the `move` callback is
invoked exactly once for that frame and the coordinate it receives is that of the first
of these events (the later ones are dropped); afterwards again no callback is pending. -/
theorem slide_moves_coalesce_to_first (s : SlideState) (e1 : PEvent) (rest : List PEvent)
    (hb : s.moveBound = true) (ha : s.isAnimating = false) (hf : s.frames = []) :
    (slideRun s ((e1 :: rest).map SlideStep.pointerMove ++ [SlideStep.frame])).calls =
        s.calls ++ [SlideCall.fnsMove [s.posn e1]] ∧
      (slideRun s ((e1 :: rest).map SlideStep.pointerMove ++ [SlideStep.frame])).isAnimating
        = false ∧
      (slideRun s ((e1 :: rest).map SlideStep.pointerMove ++ [SlideStep.frame])).frames = [] ∧
      (slideRun s ((e1 :: rest).map SlideStep.pointerMove ++ [SlideStep.frame])).moveBound
        = true := by
  have h1 : slideStep s (.pointerMove e1) = { s with isAnimating := true, frames := [e1] } := by
    simp [slideStep, SlideState.move, hb, ha, hf]
  have h2 : slideRun s ((e1 :: rest).map SlideStep.pointerMove) =
      { s with isAnimating := true, frames := [e1] } := by
    rw [List.map_cons]
    show slideRun (slideStep s (.pointerMove e1)) (rest.map SlideStep.pointerMove) = _
    rw [h1]
    exact slideRun_moves_dropped _ rest rfl
  rw [slideRun_append, h2]
  simp [slideRun, slideStep, SlideState.moveFrame, SlideState.posn, hb]

/-- Witness of C3 (as amended): after a start at (10,10), moves at (12,11) and (15,14)
and a frame add the single call `move((12,11))`. -/
theorem slide_moves_coalesce_to_first_witness :
    (slideRun (slideStep (slide none ⟨true, true, true⟩) (.pointerStart (PEvent.mouse 10 10)))
        ([PEvent.mouse 12 11, PEvent.mouse 15 14].map SlideStep.pointerMove ++
          [SlideStep.frame])).calls =
      [SlideCall.fnsStart [⟨10, 10⟩], SlideCall.fnsMove [⟨12, 11⟩]] :=
  (slide_moves_coalesce_to_first
    (slideStep (slide none ⟨true, true, true⟩) (.pointerStart (PEvent.mouse 10 10)))
    (PEvent.mouse 12 11) [PEvent.mouse 15 14] rfl rfl rfl).1

/-- Appending a call with the right argument count keeps the argument counts. -/
theorem arity_append (cs : List SlideCall) (c0 : SlideCall)
    (h : ∀ c ∈ cs, c.arityOk = true) (h0 : c0.arityOk = true) :
    ∀ c ∈ cs ++ [c0], c.arityOk = true := by
  intro c hc
  simp only [List.mem_append, List.mem_singleton] at hc
  rcases hc with hc | hc
  · exact h c hc
  · subst hc; exact h0

/-- The frame callback keeps the argument counts. -/
theorem moveFrame_arity (s : SlideState) (e : PEvent)
    (h : ∀ c ∈ s.calls, c.arityOk = true) :
    ∀ c ∈ (s.moveFrame e).calls, c.arityOk = true := by
  unfold SlideState.moveFrame
  split_ifs
  · exact h
  · exact arity_append _ _ h rfl

/-- Running pending frame callbacks keeps the argument counts. -/
theorem foldl_moveFrame_arity (es : List PEvent) (s : SlideState)
    (h : ∀ c ∈ s.calls, c.arityOk = true) :
    ∀ c ∈ (es.foldl SlideState.moveFrame s).calls, c.arityOk = true := by
  induction es generalizing s with
  | nil => exact h
  | cons e rest ih => exact ih _ (moveFrame_arity s e h)

/-- Every step keeps the argument counts. -/
theorem slideStep_arity (s : SlideState) (st : SlideStep)
    (h : ∀ c ∈ s.calls, c.arityOk = true) :
    ∀ c ∈ (slideStep s st).calls, c.arityOk = true := by
  cases st with
  | pointerStart e =>
    simp only [slideStep, SlideState.start]
    split_ifs <;> first | exact h | exact arity_append _ _ h rfl
  | pointerMove e =>
    simp only [slideStep, SlideState.move]
    split_ifs <;> exact h
  | pointerEnd e =>
    simp only [slideStep, SlideState.end_]
    split_ifs <;> first | exact h | exact arity_append _ _ h rfl
  | frame =>
    simp only [slideStep]
    exact foldl_moveFrame_arity _ _ h

/-- In every run of `slide`, whatever the events, each `move` invocation is passed
exactly one argument and each `end` invocation none: no invocation ever carries the
gesture's start coordinate as a second argument. -/
theorem slide_arity (svg : Option Matrix6) (fns : Fns) (steps : List SlideStep) :
    ∀ c ∈ (slideRun (slide svg fns) steps).calls, c.arityOk = true := by
  have key : ∀ (steps : List SlideStep) (s : SlideState),
      (∀ c ∈ s.calls, c.arityOk = true) →
      ∀ c ∈ (slideRun s steps).calls, c.arityOk = true := by
    intro steps
    induction steps with
    | nil => intro s h; exact h
    | cons st rest ih => intro s h; exact ih _ (slideStep_arity s st h)
  exact key steps _ (by intro c hc; simp [slide] at hc)

/-- C4 (defect of the code): a gesture with start at (10,10), a move at (12,11), a
frame, and the end.  `slide` calls `fns.move` with the single argument (12,11) and
`fns.end` with no argument at all; the handlers that `Draggable` hands to `slide` read a
second argument `start` (and `last`), so on these argument lists both throw. -/
theorem slide_passes_one_and_zero_arguments :
    (slideRun (slide none ⟨true, true, true⟩)
        [.pointerStart (PEvent.mouse 10 10), .pointerMove (PEvent.mouse 12 11), .frame,
          .pointerEnd (PEvent.mouse 12 11)]).calls =
      [SlideCall.fnsStart [⟨10, 10⟩], SlideCall.fnsMove [⟨12, 11⟩], SlideCall.fnsEnd []] ∧
    ((Draggable.new defaultOptions 100 100).onMove (some ⟨0, 0⟩) [⟨12, 11⟩]).isNone = true ∧
    ((Draggable.new defaultOptions 100 100).onEnd []).isNone = true := by
  decide!

/-! ### `exit`, `enter` -/

/-- On an attached, visible element past the readiness gate, `exit` with an effect name
it has no branch for throws: `animation` is still `undefined` at `animation.then`. -/
theorem exit_unrecognised_throws (w : World) (effect : String) (duration delay : ℚ)
    (remove : Bool) (ha : w.attached = true) (hr : w.isReady = true)
    (hd : w.getCss "display" ≠ "none") (he : exitRecognises effect = false) :
    exit w effect duration delay remove = .error JsError.typeError := by
  simp only [exitRecognises, Bool.or_eq_false_iff, decide_eq_false_iff_not] at he
  obtain ⟨⟨⟨⟨⟨h1, h2⟩, h3⟩, h4⟩, h5⟩, h6⟩ := he
  simp [exit, exitAnimation, ha, hr, hd, h1, h2, h3, h4, h5, h6]

/-- With an effect name it has no branch for, `enter` shows the element and returns
`undefined`, without failing. -/
theorem enter_unrecognised_undefined (w : World) (effect : String) (duration _delay : ℚ)
    (hr : w.isReady = true) (he : enterRecognises effect = false) :
    enter w effect duration _delay = (w.show, Ret.undefined) := by
  simp only [enterRecognises, Bool.or_eq_false_iff, decide_eq_false_iff_not] at he
  obtain ⟨⟨⟨⟨⟨h1, h2⟩, h3⟩, h4⟩, h5⟩, h6⟩ := he
  have hr' : w.show.isReady = true := hr
  simp [enter, hr', h1, h2, h3, h4, h5, h6]

/-- C10 (defect of the code): `exit($el, 'zoom', 400, 0, false)` on an attached, visible
element, the readiness gate open.  No branch of `exit` assigns `animation`, and the
statement `animation.then(...)` throws a `TypeError`, whereas `enter($el, 'zoom')`
returns `undefined`; `exit` throws as well on `descend`, the name `enter` knows. -/
theorem exit_zoom_throws :
    exitRecognises "zoom" = false ∧
    exit (World.fresh true "" "" "") "zoom" 400 0 false = .error JsError.typeError ∧
    (enter (World.fresh true "" "" "") "zoom" 500 0).2 = Ret.undefined ∧
    exit (World.fresh true "" "" "") "descend" 400 0 false = .error JsError.typeError ∧
    (exit (World.fresh true "" "" "") "fade" 400 0 false).toOption.map Prod.snd =
      some (Ret.handle 0) := by
  decide!

/-! ### `transition` -/

/-- C6 (what fails): `enter($el, 'pop')` on a fresh element, the readiness gate open,
makes two `transition` calls in one turn.  The second call finds the slot
`$el._data._animation` empty, calls no `cancel()`, and leaves two active handles. -/
theorem transition_same_turn_not_cancelled :
    (enter (World.fresh true "" "" "") "pop" 500 0).1.activeHandles = [0, 1] ∧
    Act.cancelCalled 0 ∉ (enter (World.fresh true "" "" "") "pop" 500 0).1.log ∧
    (tRun (World.fresh true "" "" "")
        [.transition [("opacity", .pair "0" "1")] 500 0 "ease-in-out",
          .transition [("opacity", .pair "1" "0")] 400 0 "ease-in-out"]).activeHandles
      = [0, 1] := by
  decide!

/-! ### `createEvent` -/

/-- Reading a key after a write. -/
theorem lookup_assign {β : Type} (o : List (String × β)) (k : String) (v : β) (k' : String) :
    lookup (assign o k v) k' = if k = k' then some v else lookup o k' := by
  induction o with
  | nil => simp [assign, lookup]
  | cons kv o ih =>
    obtain ⟨k1, v1⟩ := kv
    by_cases h1 : k1 = k
    · subst h1
      simp only [assign, if_true, lookup]
      by_cases h2 : k1 = k' <;> simp [h2]
    · simp only [assign, h1, if_false, lookup, ih]
      by_cases h2 : k1 = k'
      · subst h2
        simp [h1, Ne.symm h1]
      · simp [h2]

/-- A handler is in `pushNew l fn`. -/
theorem mem_pushNew_self (l : List Nat) (fn : Nat) : fn ∈ pushNew l fn := by
  unfold pushNew
  split_ifs with h
  · exact h
  · simp

/-- Pushing a handler again changes nothing. -/
theorem pushNew_idem (l : List Nat) (fn : Nat) : pushNew (pushNew l fn) fn = pushNew l fn := by
  unfold pushNew
  split_ifs <;> simp_all

/-- Pushing keeps a list free of repetition. -/
theorem pushNew_nodup (l : List Nat) (fn : Nat) (h : l.Nodup) : (pushNew l fn).Nodup := by
  unfold pushNew
  split_ifs with hm
  · exact h
  · exact List.Nodup.append h (List.nodup_singleton fn) (by simpa using hm)

/-- The handler list of a key, read from the stored entry. -/
theorem handlers_of_lookup (el : ElState) (k : String) (l : List Nat)
    (h : lookup el.events k = some (Entry.fns l)) : el.handlers k = l := by
  simp [ElState.handlers, h]

/-- What `register` does: the state changes in `_events` only, and there only at the
key of the event, whose list gets the handler unless it has it. -/
theorem register_spec (el : ElState) (event : String) (fn : Nat) (hwf : el.WF)
    (hr : reserved event = false) (hi : inheritedKey event = false) :
    ∃ ev, register el event fn = some { el with events := ev } ∧
      (fn ∈ el.handlers event → ev = el.events) ∧
      ∀ k, lookup ev k =
        if event = k then some (Entry.fns (pushNew (el.handlers event) fn))
        else lookup el.events k := by
  cases hl : lookup el.events event with
  | none =>
    refine ⟨assign el.events event (Entry.fns [fn]), ?_, ?_, ?_⟩
    · simp [register, hl, hi]
    · intro hm; simp [ElState.handlers, hl] at hm
    · intro k
      rw [lookup_assign]
      simp [ElState.handlers, hl, pushNew]
  | some e =>
    rcases hwf event e hl with ⟨h1, _⟩ | ⟨_, l, rfl, _⟩
    · rw [hr] at h1; cases h1
    · have hh : el.handlers event = l := handlers_of_lookup el event l hl
      by_cases hm : fn ∈ l
      · refine ⟨el.events, ?_, fun _ => rfl, ?_⟩
        · simp [register, hl, List.indexOf_lt_length, hm]
        · intro k
          by_cases hk : event = k
          · subst hk; simp [hl, hh, pushNew, hm]
          · simp [hk]
      · refine ⟨assign el.events event (Entry.fns (l ++ [fn])), ?_, ?_, ?_⟩
        · simp [register, hl, List.indexOf_lt_length, hm]
        · intro hm'; rw [hh] at hm'; exact absurd hm' hm
        · intro k
          rw [lookup_assign]
          simp [hh, pushNew, hm]

/-- The shape of `_events` is kept when only the list of one handler key changes, to a
list without repetition. -/
theorem wf_of_lookup (el : ElState) (ev : List (String × Entry)) (event : String)
    (l : List Nat) (hwf : el.WF) (hr : reserved event = false) (hl : l.Nodup)
    (h : ∀ k, lookup ev k = if event = k then some (Entry.fns l) else lookup el.events k) :
    ElState.WF { el with events := ev } := by
  intro k e hk
  simp only at hk
  rw [h k] at hk
  by_cases hc : event = k
  · subst hc
    simp only [if_true, Option.some.injEq] at hk
    exact Or.inr ⟨hr, l, hk.symm, hl⟩
  · simp only [hc, if_false] at hk
    exact hwf k e hk

/-- The handler lists kept by the shape are free of repetition. -/
theorem handlers_nodup (el : ElState) (hwf : el.WF) (k : String) : (el.handlers k).Nodup := by
  unfold ElState.handlers
  cases hl : lookup el.events k with
  | none => simp
  | some e =>
    cases e with
    | flag => simp
    | fns l =>
      rcases hwf k _ hl with ⟨_, h⟩ | ⟨_, l', h, hn⟩
      · cases h
      · cases h; simpa using hn

/-- Equal entries give equal handler lists. -/
theorem handlers_congr (a b : ElState) (k : String)
    (h : lookup a.events k = lookup b.events k) : a.handlers k = b.handlers k := by
  simp [ElState.handlers, h]

/-- What `createEvent` does for a native event name. -/
theorem createNative_spec (el : ElState) (w : String) (fn : Nat) (cap : Bool) (hwf : el.WF)
    (hr : reserved w = false) (hi : inheritedKey w = false) :
    ∃ el1, createNative el w fn cap = some el1 ∧ el1.WF ∧
      (fn ∈ el.handlers w → el1.events = el.events) ∧
      ∀ k, lookup el1.events k =
        if w = k then some (Entry.fns (pushNew (el.handlers w) fn)) else lookup el.events k := by
  have hwf1 : ElState.WF
      { el with native := el.native ++ [(w, Listener.handler fn, cap)] } := hwf
  obtain ⟨ev, h1, h2, h3⟩ := register_spec _ w fn hwf1 hr hi
  refine ⟨_, h1, ?_, h2, h3⟩
  exact wf_of_lookup _ ev w _ hwf1 hr (pushNew_nodup _ _ (handlers_nodup el hwf w)) h3

/-- What the method `on` does for a list of native names. -/
theorem on_spec (ns : List String) (fn : Nat) (cap : Bool) :
    ∀ (el : ElState), el.WF → (∀ w ∈ ns, reserved w = false ∧ inheritedKey w = false) →
    ∃ el1, el.on ns fn cap = some el1 ∧ el1.WF ∧
      ((∀ w ∈ ns, fn ∈ el.handlers w) → el1.events = el.events) ∧
      (∀ k, k ∉ ns → lookup el1.events k = lookup el.events k) ∧
      ∀ k, k ∈ ns → lookup el1.events k = some (Entry.fns (pushNew (el.handlers k) fn)) := by
  induction ns with
  | nil =>
    intro el hwf _
    exact ⟨el, rfl, hwf, fun _ => rfl, fun _ _ => rfl, fun k hk => by simp at hk⟩
  | cons w ws ih =>
    intro el hwf hres
    obtain ⟨el1, h1, hwf1, hsame1, hl1⟩ :=
      createNative_spec el w fn cap hwf (hres w (by simp)).1 (hres w (by simp)).2
    obtain ⟨el2, h2, hwf2, hsame2, hout2, hin2⟩ :=
      ih el1 hwf1 (fun x hx => hres x (by simp [hx]))
    have hh1 : ∀ k, el1.handlers k = if w = k then pushNew (el.handlers w) fn else el.handlers k := by
      intro k
      by_cases hk : w = k
      · subst hk
        simp only [if_true]
        exact handlers_of_lookup _ _ _ (by rw [hl1]; simp)
      · simp only [hk, if_false]
        exact handlers_congr _ _ _ (by rw [hl1]; simp [hk])
    refine ⟨el2, ?_, hwf2, ?_, ?_, ?_⟩
    · simp only [ElState.on, List.foldlM_cons, h1, Option.bind_eq_bind, Option.some_bind]
      exact h2
    · intro hall
      have e1 : el1.events = el.events := hsame1 (hall w (by simp))
      have hh : ∀ k, el1.handlers k = el.handlers k :=
        fun k => handlers_congr _ _ _ (by rw [e1])
      rw [hsame2 (fun x hx => by rw [hh]; exact hall x (by simp [hx])), e1]
    · intro k hk
      have hkw : ¬ w = k := fun e => hk (by simp [e])
      have hks : k ∉ ws := fun e => hk (by simp [e])
      rw [hout2 k hks, hl1]
      simp [hkw]
    · intro k hk
      by_cases hks : k ∈ ws
      · rw [hin2 k hks, hh1]
        by_cases hkw : w = k
        · subst hkw; simp [pushNew_idem]
        · simp [hkw]
      · have hkw : w = k := by
          rcases List.mem_cons.mp hk with e | e
          · exact e.symm
          · exact absurd e hks
        subst hkw
        rw [hout2 w hks, hl1]
        simp

/-- The native names of the table are no flag keys and no inherited keys. -/
theorem names_not_reserved (name : String) (ns : List String)
    (h : customEvents name = Custom.names ns) :
    ∀ w ∈ ns, reserved w = false ∧ inheritedKey w = false := by
  unfold customEvents at h
  by_cases c0 : name = "pointerStart"
  · rw [if_pos c0] at h; injection h with h; subst h; decide
  rw [if_neg c0] at h
  by_cases c1 : name = "pointerMove"
  · rw [if_pos c1] at h; injection h with h; subst h; decide
  rw [if_neg c1] at h
  by_cases c2 : name = "pointerEnd"
  · rw [if_pos c2] at h; injection h with h; subst h; decide
  rw [if_neg c2] at h
  by_cases c3 : name = "change"
  · rw [if_pos c3] at h; injection h with h; subst h; decide
  rw [if_neg c3] at h
  by_cases c4 : name = "scrollwheel"
  · rw [if_pos c4] at h; injection h with h; subst h; decide
  rw [if_neg c4] at h
  by_cases c5 : name = "click"
  · rw [if_pos c5] at h; injection h
  rw [if_neg c5] at h
  by_cases c6 : name = "clickOutside"
  · rw [if_pos c6] at h; injection h
  rw [if_neg c6] at h
  by_cases c7 : name = "pointerEnter"
  · rw [if_pos c7] at h; injection h
  rw [if_neg c7] at h
  by_cases c8 : name = "pointerLeave"
  · rw [if_pos c8] at h; injection h
  rw [if_neg c8] at h
  by_cases c9 : name = "pointerOver"
  · rw [if_pos c9] at h; injection h
  rw [if_neg c9] at h
  by_cases c10 : name = "scrollStart"
  · rw [if_pos c10] at h; injection h
  rw [if_neg c10] at h
  by_cases c11 : name = "scroll"
  · rw [if_pos c11] at h; injection h
  rw [if_neg c11] at h
  by_cases c12 : name = "scrollEnd"
  · rw [if_pos c12] at h; injection h
  rw [if_neg c12] at h
  by_cases c13 : inheritedKey name = true
  · rw [if_pos c13] at h; injection h
  rw [if_neg c13] at h
  injection h

/-- Only an inherited key reads an inherited property from the table. -/
theorem inherited_of_customEvents (name : String) (h : customEvents name = Custom.inherited) :
    inheritedKey name = true := by
  unfold customEvents at h
  by_cases c0 : name = "pointerStart"
  · rw [if_pos c0] at h; injection h
  rw [if_neg c0] at h
  by_cases c1 : name = "pointerMove"
  · rw [if_pos c1] at h; injection h
  rw [if_neg c1] at h
  by_cases c2 : name = "pointerEnd"
  · rw [if_pos c2] at h; injection h
  rw [if_neg c2] at h
  by_cases c3 : name = "change"
  · rw [if_pos c3] at h; injection h
  rw [if_neg c3] at h
  by_cases c4 : name = "scrollwheel"
  · rw [if_pos c4] at h; injection h
  rw [if_neg c4] at h
  by_cases c5 : name = "click"
  · rw [if_pos c5] at h; injection h
  rw [if_neg c5] at h
  by_cases c6 : name = "clickOutside"
  · rw [if_pos c6] at h; injection h
  rw [if_neg c6] at h
  by_cases c7 : name = "pointerEnter"
  · rw [if_pos c7] at h; injection h
  rw [if_neg c7] at h
  by_cases c8 : name = "pointerLeave"
  · rw [if_pos c8] at h; injection h
  rw [if_neg c8] at h
  by_cases c9 : name = "pointerOver"
  · rw [if_pos c9] at h; injection h
  rw [if_neg c9] at h
  by_cases c10 : name = "scrollStart"
  · rw [if_pos c10] at h; injection h
  rw [if_neg c10] at h
  by_cases c11 : name = "scroll"
  · rw [if_pos c11] at h; injection h
  rw [if_neg c11] at h
  by_cases c12 : name = "scrollEnd"
  · rw [if_pos c12] at h; injection h
  rw [if_neg c12] at h
  by_cases c13 : inheritedKey name = true
  · exact c13
  rw [if_neg c13] at h
  injection h

/-- No event name that is not a flag key is one of the two flag keys. -/
theorem ne_of_not_reserved (name : String) (hr : reserved name = false) :
    name ≠ "_click" ∧ name ≠ "_clickOutside" := by
  simp only [reserved, Bool.or_eq_false_iff, decide_eq_false_iff_not] at hr
  exact hr

/-- Writing a flag at a flag key keeps the shape and every handler list. -/
theorem wf_assign_flag (el : ElState) (key : String) (hk : reserved key = true)
    (hwf : el.WF) :
    ElState.WF { el with events := assign el.events key Entry.flag } ∧
      ∀ k, reserved k = false →
        lookup (assign el.events key Entry.flag) k = lookup el.events k := by
  constructor
  · intro k e h
    simp only at h
    rw [lookup_assign] at h
    by_cases hc : key = k
    · subst hc
      simp only [if_true, Option.some.injEq] at h
      exact Or.inl ⟨hk, h.symm⟩
    · simp only [hc, if_false] at h
      exact hwf k e h
  · intro k hkr
    rw [lookup_assign]
    have : ¬ key = k := fun e => by rw [e, hkr] at hk; cases hk
    simp [this]

/-- The setup `makeClickEvent` touches `_events` at its flag only, and not at all when
the flag is set. -/
theorem makeClickEvent_spec (iOS : Bool) (el : ElState) (hwf : el.WF) :
    (makeClickEvent iOS el).WF ∧
      (∀ k, reserved k = false →
        lookup (makeClickEvent iOS el).events k = lookup el.events k) ∧
      (lookup (makeClickEvent iOS el).events "_click").isSome = true ∧
      ((lookup el.events "_click").isSome = true → (makeClickEvent iOS el).events = el.events) := by
  unfold makeClickEvent
  by_cases h : (lookup el.events "_click").isSome = true
  · rw [if_pos h]
    exact ⟨hwf, fun _ _ => rfl, h, fun _ => rfl⟩
  · have hw := wf_assign_flag el "_click" (by decide) hwf
    rw [if_neg h]
    cases iOS
    · exact ⟨hw.1, hw.2, by simp [lookup_assign], fun h' => absurd h' h⟩
    · exact ⟨hw.1, hw.2, by simp [lookup_assign], fun h' => absurd h' h⟩

/-- The setup `makeClickOutsideEvent` touches `_events` at its flag only, and not at all
when the flag is set. -/
theorem makeClickOutsideEvent_spec (el : ElState) (hwf : el.WF) :
    (makeClickOutsideEvent el).WF ∧
      (∀ k, reserved k = false →
        lookup (makeClickOutsideEvent el).events k = lookup el.events k) ∧
      (lookup (makeClickOutsideEvent el).events "_clickOutside").isSome = true ∧
      ((lookup el.events "_clickOutside").isSome = true →
        (makeClickOutsideEvent el).events = el.events) := by
  unfold makeClickOutsideEvent
  by_cases h : (lookup el.events "_clickOutside").isSome = true
  · rw [if_pos h]
    exact ⟨hwf, fun _ _ => rfl, h, fun _ => rfl⟩
  · have hw := wf_assign_flag el "_clickOutside" (by decide) hwf
    rw [if_neg h]
    exact ⟨hw.1, hw.2, by simp [lookup_assign], fun h' => absurd h' h⟩

/-- The setup `makePointerPositionEvents` leaves `_events` alone. -/
theorem makePointerPositionEvents_events (el : ElState) :
    (makePointerPositionEvents el).events = el.events := by
  unfold makePointerPositionEvents
  split_ifs <;> rfl

/-- The setup `makeScrollEvents` leaves `_events` alone. -/
theorem makeScrollEvents_events (el : ElState) : (makeScrollEvents el).events = el.events := by
  unfold makeScrollEvents
  by_cases h1 : el.scrollEvents = true
  · rw [if_pos h1]
  · rw [if_neg h1]
    by_cases h2 : el.isWindow = true
    · simp [h2]
    · simp [h2]

/-- Registration after a step `m` that kept every handler list of `el`. -/
theorem register_after (el m : ElState) (name : String) (fn : Nat) (hwf : m.WF)
    (hr : reserved name = false) (hi : inheritedKey name = false)
    (hsame : ∀ k, reserved k = false → lookup m.events k = lookup el.events k) :
    ∃ el1, register m name fn = some el1 ∧ el1.WF ∧
      (∀ k, reserved k = false →
        el1.handlers k = if name = k then pushNew (el.handlers k) fn else el.handlers k) ∧
      (∀ k, reserved k = true → lookup el1.events k = lookup m.events k) ∧
      (fn ∈ el.handlers name → el1.events = m.events) := by
  obtain ⟨ev, h1, h2, h3⟩ := register_spec m name fn hwf hr hi
  have hmn : m.handlers name = el.handlers name := handlers_congr _ _ _ (hsame name hr)
  refine ⟨_, h1, ?_, ?_, ?_, ?_⟩
  · exact wf_of_lookup _ ev name _ hwf hr (pushNew_nodup _ _ (handlers_nodup m hwf name)) h3
  · intro k hk
    by_cases hc : name = k
    · subst hc
      simp only [if_true]
      rw [← hmn]
      exact handlers_of_lookup _ _ _ (by rw [h3]; simp)
    · simp only [hc, if_false]
      unfold ElState.handlers
      simp only [h3 k, hc, if_false, hsame k hk]
  · intro k hk
    have hc : ¬ name = k := fun e => by rw [e, hk] at hr; cases hr
    simp only [h3 k, hc, if_false]
  · intro hm
    rw [← hmn] at hm
    exact h2 hm

/-- What one `createEvent` call does, for an event name that is no flag key and no
inherited key: it returns
(no exception), keeps the shape of `_events`, pushes the handler onto the list of the
name and of the native names of its table entry, sets the flag of its setup function,
and changes nothing in `_events` when the handler was registered before. -/
theorem createEvent_spec (iOS : Bool) (el : ElState) (name : String) (fn : Nat) (cap : Bool)
    (hwf : el.WF) (hr : reserved name = false) (hi : inheritedKey name = false) :
    ∃ el1, createEvent iOS el name fn cap = some el1 ∧ el1.WF ∧
      (∀ k, reserved k = false →
        el1.handlers k =
          if registersAt name k = true then pushNew (el.handlers k) fn else el.handlers k) ∧
      setupDone el1 name = true ∧
      ((∀ k, registersAt name k = true → fn ∈ el.handlers k) → setupDone el name = true →
        el1.events = el.events) := by
  have hself : registersAt name name = true := by simp [registersAt]
  cases hc : customEvents name with
  | names ns =>
    have hns := names_not_reserved name ns hc
    obtain ⟨m, hm1, hmwf, hmsame, hout, hin⟩ := on_spec ns fn cap el hwf hns
    obtain ⟨ev, h1, h2, h3⟩ := register_spec m name fn hmwf hr hi
    have hmh : ∀ k, m.handlers k =
        if k ∈ ns then pushNew (el.handlers k) fn else el.handlers k := by
      intro k
      by_cases hk : k ∈ ns
      · simp only [hk, if_true]
        exact handlers_of_lookup _ _ _ (hin k hk)
      · simp only [hk, if_false]
        exact handlers_congr _ _ _ (hout k hk)
    refine ⟨{ m with events := ev }, ?_, ?_, ?_, ?_, ?_⟩
    · simp [createEvent, hc, hm1, h1]
    · exact wf_of_lookup _ ev name _ hmwf hr (pushNew_nodup _ _ (handlers_nodup m hmwf name)) h3
    · intro k _
      have hk1 : ElState.handlers { m with events := ev } k =
          if name = k then pushNew (m.handlers name) fn else m.handlers k := by
        by_cases hnk : name = k
        · subst hnk
          simp only [if_true]
          exact handlers_of_lookup _ _ _ (by rw [h3]; simp)
        · simp only [hnk, if_false]
          exact handlers_congr _ _ _ (by rw [h3]; simp [hnk])
      rw [hk1]
      by_cases hnk : name = k
      · subst hnk
        simp only [if_true, hself]
        rw [hmh]
        split_ifs
        · exact pushNew_idem _ _
        · rfl
      · have hreg : registersAt name k = decide (k ∈ ns) := by
          simp [registersAt, hc, hnk]
        simp only [hnk, if_false, hreg, decide_eq_true_eq]
        exact hmh k
    · simp [setupDone, hc]
    · intro hall _
      have e1 : m.events = el.events :=
        hmsame (fun w hw => hall w (by simp [registersAt, hc, hw]))
      have hm : fn ∈ m.handlers name := by
        rw [handlers_congr m el name (by rw [e1])]
        exact hall name hself
      show ev = el.events
      rw [h2 hm, e1]
  | makeClickEvent =>
    obtain ⟨s1, s2, s3, s4⟩ := makeClickEvent_spec iOS el hwf
    obtain ⟨el1, h1, h2, h3, h4, h5⟩ := register_after el _ name fn s1 hr hi s2
    refine ⟨el1, by simp [createEvent, hc, h1], h2, ?_, ?_, ?_⟩
    · intro k hk
      rw [h3 k hk]
      simp [registersAt, hc]
    · simp only [setupDone, hc]
      rw [h4 "_click" (by decide)]
      exact s3
    · intro hall hdone
      simp only [setupDone, hc] at hdone
      rw [h5 (hall name hself), s4 hdone]
  | makeClickOutsideEvent =>
    obtain ⟨s1, s2, s3, s4⟩ := makeClickOutsideEvent_spec el hwf
    obtain ⟨el1, h1, h2, h3, h4, h5⟩ := register_after el _ name fn s1 hr hi s2
    refine ⟨el1, by simp [createEvent, hc, h1], h2, ?_, ?_, ?_⟩
    · intro k hk
      rw [h3 k hk]
      simp [registersAt, hc]
    · simp only [setupDone, hc]
      rw [h4 "_clickOutside" (by decide)]
      exact s3
    · intro hall hdone
      simp only [setupDone, hc] at hdone
      rw [h5 (hall name hself), s4 hdone]
  | makePointerPositionEvents =>
    have e := makePointerPositionEvents_events el
    have s1 : (makePointerPositionEvents el).WF := by
      intro k x hk; rw [e] at hk; exact hwf k x hk
    obtain ⟨el1, h1, h2, h3, _, h5⟩ :=
      register_after el _ name fn s1 hr hi (fun k _ => by rw [e])
    refine ⟨el1, by simp [createEvent, hc, h1], h2, ?_, by simp [setupDone, hc], ?_⟩
    · intro k hk
      rw [h3 k hk]
      simp [registersAt, hc]
    · intro hall _
      rw [h5 (hall name hself), e]
  | makeScrollEvents =>
    have e := makeScrollEvents_events el
    have s1 : (makeScrollEvents el).WF := by
      intro k x hk; rw [e] at hk; exact hwf k x hk
    obtain ⟨el1, h1, h2, h3, _, h5⟩ :=
      register_after el _ name fn s1 hr hi (fun k _ => by rw [e])
    refine ⟨el1, by simp [createEvent, hc, h1], h2, ?_, by simp [setupDone, hc], ?_⟩
    · intro k hk
      rw [h3 k hk]
      simp [registersAt, hc]
    · intro hall _
      rw [h5 (hall name hself), e]
  | inherited =>
    rw [inherited_of_customEvents name hc] at hi
    cases hi
  | undefined =>
    have s1 : ElState.WF { el with native := el.native ++ [(name, Listener.handler fn, cap)] } :=
      hwf
    obtain ⟨el1, h1, h2, h3, _, h5⟩ :=
      register_after el _ name fn s1 hr hi (fun k _ => rfl)
    refine ⟨el1, by simp [createEvent, hc, createNative, h1], h2, ?_, by simp [setupDone, hc], ?_⟩
    · intro k hk
      rw [h3 k hk]
      simp [registersAt, hc]
    · intro hall _
      rw [h5 (hall name hself)]

/-- Membership in the list of first occurrences. -/
theorem mem_firstOccurrences (l : List Nat) (x : Nat) : x ∈ firstOccurrences l ↔ x ∈ l := by
  simp [firstOccurrences]

/-- The list of first occurrences has no repetition. -/
theorem firstOccurrences_nodup (l : List Nat) : (firstOccurrences l).Nodup := by
  simp [firstOccurrences, List.nodup_reverse, List.nodup_dedup]

/-- First occurrences of a list with one more element at the end. -/
theorem firstOccurrences_snoc (l : List Nat) (x : Nat) :
    firstOccurrences (l ++ [x]) = pushNew (firstOccurrences l) x := by
  have hm := mem_firstOccurrences l x
  unfold pushNew
  by_cases h : x ∈ l
  · rw [if_pos (hm.mpr h)]
    unfold firstOccurrences
    rw [List.reverse_append, List.reverse_singleton, List.singleton_append,
      List.dedup_cons_of_mem (by simpa using h)]
  · rw [if_neg (fun e => h (hm.mp e))]
    unfold firstOccurrences
    rw [List.reverse_append, List.reverse_singleton, List.singleton_append,
      List.dedup_cons_of_not_mem (by simpa using h), List.reverse_cons]

/-- A list without repetition is its own list of first occurrences. -/
theorem firstOccurrences_of_nodup (l : List Nat) (h : l.Nodup) : firstOccurrences l = l := by
  unfold firstOccurrences
  rw [List.Nodup.dedup (List.nodup_reverse.mpr h), List.reverse_reverse]

/-- A sequence of calls followed by one more call. -/
theorem createEvents_snoc (iOS : Bool) (cs : List (String × Nat × Bool))
    (c : String × Nat × Bool) :
    ∀ el, createEvents iOS el (cs ++ [c]) =
      (createEvents iOS el cs).bind (fun e => createEvent iOS e c.1 c.2.1 c.2.2) := by
  induction cs with
  | nil =>
    intro el
    simp only [List.nil_append, createEvents, Option.some_bind]
    cases createEvent iOS el c.1 c.2.1 c.2.2 <;> rfl
  | cons d ds ih =>
    intro el
    simp only [List.cons_append, createEvents]
    cases createEvent iOS el d.1 d.2.1 d.2.2 with
    | none => rfl
    | some e => simp only [Option.some_bind]; exact ih e

/-- The registrations of a sequence of calls followed by one more call. -/
theorem registrations_snoc (k : String) (cs : List (String × Nat × Bool))
    (c : String × Nat × Bool) :
    registrations k (cs ++ [c]) =
      if registersAt c.1 k = true then registrations k cs ++ [c.2.1] else registrations k cs := by
  unfold registrations
  rw [List.filter_append, List.map_append]
  by_cases h : registersAt c.1 k = true
  · simp [h]
  · simp [h]

/-- After any sequence of `createEvent` calls, each handler list is the list of first
occurrences of what it held followed by the handlers registered at its key. -/
theorem createEvents_spec (iOS : Bool) (el : ElState) (hwf : el.WF)
    (calls : List (String × Nat × Bool))
    (hc : ∀ c ∈ calls, reserved c.1 = false ∧ inheritedKey c.1 = false) :
    ∃ el1, createEvents iOS el calls = some el1 ∧ el1.WF ∧
      ∀ k, reserved k = false →
        el1.handlers k = firstOccurrences (el.handlers k ++ registrations k calls) := by
  induction calls using List.reverseRecOn with
  | nil =>
    refine ⟨el, rfl, hwf, fun k _ => ?_⟩
    simp only [registrations, List.filter_nil, List.map_nil, List.append_nil]
    exact (firstOccurrences_of_nodup _ (handlers_nodup el hwf k)).symm
  | append_singleton cs c ih =>
    obtain ⟨el1, h1, hwf1, hh1⟩ := ih (fun d hd => hc d (by simp [hd]))
    obtain ⟨el2, h2, hwf2, hh2, _, _⟩ :=
      createEvent_spec iOS el1 c.1 c.2.1 c.2.2 hwf1 (hc c (by simp)).1 (hc c (by simp)).2
    refine ⟨el2, ?_, hwf2, fun k hk => ?_⟩
    · rw [createEvents_snoc, h1]
      exact h2
    · rw [hh2 k hk, hh1 k hk, registrations_snoc]
      by_cases hreg : registersAt c.1 k = true
      · simp only [hreg, if_true]
        rw [← List.append_assoc, firstOccurrences_snoc]
      · simp only [hreg, if_false]
        rfl

/-- An element without event state has the shape. -/
theorem fresh_wf (isWindow : Bool) : (ElState.fresh isWindow).WF := by
  intro k e h
  simp [ElState.fresh, lookup] at h

/-- Splitting the test of an event name. -/
theorem eventName_iff (k : String) :
    eventName k = true ↔ reserved k = false ∧ inheritedKey k = false := by
  unfold eventName
  cases reserved k <;> cases inheritedKey k <;> simp

/-- C9 (what fails): `createEvent` does not register a handler under every name.  The
setup functions keep their flags in `$el._events`, so after `click` was registered the
name `_click` finds the flag `true` and `indexOf` throws; and the names a plain object
inherits are found in `customEvents` and in `$el._events`: for `__proto__` the call
`custom($el)` throws, for `constructor` the inherited `Object` has no `indexOf`.  In each
case the call throws and no handler list holds the handler. -/
theorem createEvent_throws_on_flag_and_inherited_keys :
    ((createEvent false (ElState.fresh false) "click" 1 false).bind
      (fun e => createEvent false e "_click" 2 false)) = none ∧
    createEvent false (ElState.fresh false) "__proto__" 1 false = none ∧
    createEvent false (ElState.fresh false) "constructor" 1 false = none := by
  decide!

/-- C9 (as amended): for every element event state (of the shape the code keeps) and
every sequence of `createEvent` calls on event names other than the two flag keys `_click`
and `_clickOutside` and the keys a plain object inherits from `Object.prototype`: the
calls return; calling `createEvent(el, name, fn)` a second time with the same `fn` leaves
`el._events` unchanged; each handler list is the list of first occurrences of what it held
followed by the handlers registered at its key, so it has no repetition, holds every
registered handler, in order of first registration, and a dispatch, which iterates the
list, invokes each of them exactly once. -/
theorem createEvent_deduplicates (iOS : Bool) (el : ElState) (hwf : el.WF)
    (calls : List (String × Nat × Bool)) (hc : ∀ c ∈ calls, eventName c.1 = true) :
    ∃ el1, createEvents iOS el calls = some el1 ∧
      (∀ (name : String) (fn : Nat) (cap cap2 : Bool), eventName name = true →
        ∃ el2 el3, createEvent iOS el1 name fn cap = some el2 ∧
          createEvent iOS el2 name fn cap2 = some el3 ∧ el3.events = el2.events) ∧
      (∀ k, eventName k = true →
        el1.handlers k = firstOccurrences (el.handlers k ++ registrations k calls) ∧
        (el1.handlers k).Nodup ∧
        (∀ fn, fn ∈ el1.handlers k ↔ fn ∈ el.handlers k ∨ fn ∈ registrations k calls) ∧
        ∀ fn, fn ∈ el.handlers k ∨ fn ∈ registrations k calls →
          (el1.trigger k).count fn = 1) := by
  obtain ⟨el1, h1, hwf1, hh1⟩ :=
    createEvents_spec iOS el hwf calls (fun c hcm => (eventName_iff c.1).mp (hc c hcm))
  refine ⟨el1, h1, ?_, ?_⟩
  · intro name fn cap cap2 hn
    obtain ⟨hr, hi⟩ := (eventName_iff name).mp hn
    obtain ⟨el2, h2, hwf2, hh2, hd2, _⟩ := createEvent_spec iOS el1 name fn cap hwf1 hr hi
    obtain ⟨el3, h3, _, _, _, hsame⟩ := createEvent_spec iOS el2 name fn cap2 hwf2 hr hi
    refine ⟨el2, el3, h2, h3, hsame ?_ hd2⟩
    intro k hk
    have hkr : reserved k = false := by
      simp only [registersAt, Bool.or_eq_true, decide_eq_true_eq] at hk
      rcases hk with e | e
      · rw [← e]; exact hr
      · cases hcu : customEvents name with
        | names ns =>
          rw [hcu] at e
          exact (names_not_reserved name ns hcu k (by simpa using e)).1
        | _ => rw [hcu] at e; cases e
    rw [hh2 k hkr, if_pos hk]
    exact mem_pushNew_self _ _
  · intro k hkn
    have hk : reserved k = false := ((eventName_iff k).mp hkn).1
    have hmem : ∀ fn, fn ∈ el1.handlers k ↔ fn ∈ el.handlers k ∨ fn ∈ registrations k calls := by
      intro fn
      rw [hh1 k hk, mem_firstOccurrences, List.mem_append]
    have hnd : (el1.handlers k).Nodup := by
      rw [hh1 k hk]; exact firstOccurrences_nodup _
    refine ⟨hh1 k hk, hnd, hmem, fun fn hfn => ?_⟩
    exact List.count_eq_one_of_mem hnd ((hmem fn).mpr hfn)

/-- Witness of C9 (as amended): on a fresh element, `click` with handler 1, `pointerStart`
with handler 2, `click` with handler 1 again and `mousedown` with handler 3. -/
theorem createEvent_deduplicates_witness :
    (ElState.fresh false).WF ∧
    (∀ c ∈ [("click", 1, false), ("pointerStart", 2, false), ("click", 1, false),
        ("mousedown", 3, true)], eventName c.1 = true) ∧
    ∃ el1, createEvents false (ElState.fresh false)
        [("click", 1, false), ("pointerStart", 2, false), ("click", 1, false),
          ("mousedown", 3, true)] = some el1 ∧
      (∀ (name : String) (fn : Nat) (cap cap2 : Bool), eventName name = true →
        ∃ el2 el3, createEvent false el1 name fn cap = some el2 ∧
          createEvent false el2 name fn cap2 = some el3 ∧ el3.events = el2.events) ∧
      (∀ k, eventName k = true →
        el1.handlers k = firstOccurrences ((ElState.fresh false).handlers k ++
          registrations k [("click", 1, false), ("pointerStart", 2, false), ("click", 1, false),
            ("mousedown", 3, true)]) ∧
        (el1.handlers k).Nodup ∧
        (∀ fn, fn ∈ el1.handlers k ↔ fn ∈ (ElState.fresh false).handlers k ∨
          fn ∈ registrations k [("click", 1, false), ("pointerStart", 2, false),
            ("click", 1, false), ("mousedown", 3, true)]) ∧
        ∀ fn, fn ∈ (ElState.fresh false).handlers k ∨
            fn ∈ registrations k [("click", 1, false), ("pointerStart", 2, false),
              ("click", 1, false), ("mousedown", 3, true)] →
          (el1.trigger k).count fn = 1) :=
  ⟨fresh_wf false, by decide,
    createEvent_deduplicates false (ElState.fresh false) (fresh_wf false) _ (by decide)⟩

/-- The object `_events` after `click` with handler 1, `pointerStart` with handler 2,
`click` with handler 1 again and `mousedown` with handler 3, on a fresh element. -/
theorem createEvents_values :
    (createEvents false (ElState.fresh false)
      [("click", 1, false), ("pointerStart", 2, false), ("click", 1, false),
        ("mousedown", 3, true)]).map (fun e => e.events) =
      some [("_click", Entry.flag), ("click", Entry.fns [1]), ("mousedown", Entry.fns [2, 3]),
        ("touchstart", Entry.fns [2]), ("pointerStart", Entry.fns [2])] := by
  decide!

/-! ### The transition slot -/

/-- Nothing changes. -/
theorem shrinks_refl (w : World) : w.Shrinks w :=
  ⟨rfl, rfl, rfl, rfl, fun _ h => h, [], by simp⟩

/-- Two changes in a row. -/
theorem shrinks_trans {a b c : World} (h1 : a.Shrinks b) (h2 : b.Shrinks c) : a.Shrinks c := by
  obtain ⟨r1, a1, t1, l1, i1, x1, e1⟩ := h1
  obtain ⟨r2, a2, t2, l2, i2, x2, e2⟩ := h2
  refine ⟨r2.trans r1, a2.trans a1, t2.trans t1, l2.trans l1, fun h hh => i1 h (i2 h hh),
    x1 ++ x2, ?_⟩
  rw [e2, e1, List.append_assoc]

/-- A change that keeps the handles and adds to the log. -/
theorem shrinks_of_handles (w w' : World) (h1 : w'.isReady = w.isReady)
    (h2 : w'.animation = w.animation) (h3 : w'.timers = w.timers)
    (h4 : w'.handles = w.handles) (h5 : ∃ rest, w'.log = w.log ++ rest) : w.Shrinks w' := by
  refine ⟨h1, h2, h3, by rw [h4], fun h hh => ?_, h5⟩
  simpa [World.isActive, h4] using hh

/-- A style write. -/
theorem css_shrinks (w : World) (k : String) (v : Option String) : w.Shrinks (w.css k v) := by
  cases v with
  | none => exact shrinks_refl w
  | some v => exact shrinks_of_handles _ _ rfl rfl rfl rfl ⟨[Act.css k v], rfl⟩

/-- A fold of changes. -/
theorem foldl_shrinks {α : Type} (f : World → α → World)
    (hf : ∀ (u : World) (x : α), u.Shrinks (f u x))
    (xs : List α) : ∀ w : World, w.Shrinks (xs.foldl f w) := by
  induction xs with
  | nil => exact fun w => shrinks_refl w
  | cons x rest ih => exact fun w => shrinks_trans (hf w x) (ih (f w x))

/-- Whether a handle is active after a change of the closure of handle `h`. -/
theorem isActive_updateHandle (w : World) (h : Nat) (f : Handle → Handle) (h' : Nat) :
    (w.updateHandle h f).isActive h' =
      if h = h' then
        (match w.handles.get? h with
         | some x => (f x).active
         | none => false)
      else w.isActive h' := by
  unfold World.updateHandle World.isActive
  simp only [List.get?_eq_getElem?]
  cases hx : w.handles[h]? with
  | none =>
    by_cases e : h = h'
    · subst e; simp [hx]
    · simp [e]
  | some x =>
    have hlt : h < w.handles.length := (List.getElem?_eq_some.mp hx).1
    by_cases e : h = h'
    · subst e
      simp [List.getElem?_set, hlt]
    · simp [e, List.getElem?_set_ne e]

/-- A change of the closure of a handle that keeps its state of activity. -/
theorem updateHandle_shrinks (w : World) (h : Nat) (f : Handle → Handle)
    (hf : ∀ x, (f x).active = true → x.active = true) : w.Shrinks (w.updateHandle h f) := by
  refine ⟨?_, ?_, ?_, ?_, fun h' hh => ?_, [], ?_⟩
  · unfold World.updateHandle; split <;> rfl
  · unfold World.updateHandle; split <;> rfl
  · unfold World.updateHandle; split <;> rfl
  · unfold World.updateHandle; split <;> simp
  · rw [isActive_updateHandle] at hh
    by_cases e : h = h'
    · subst e
      simp only [if_true] at hh
      unfold World.isActive
      cases hx : w.handles.get? h with
      | none => rw [hx] at hh; exact hh
      | some x => rw [hx] at hh; exact hf x hh
    · simpa [e] using hh
  · unfold World.updateHandle; split <;> simp

/-- Adding to the log. -/
theorem log_shrinks (w : World) (acts : List Act) :
    w.Shrinks { w with log := w.log ++ acts } :=
  shrinks_of_handles _ _ rfl rfl rfl rfl ⟨acts, rfl⟩

/-- A change of the closure of a handle leaves the log alone. -/
theorem updateHandle_log (w : World) (h : Nat) (f : Handle → Handle) :
    (w.updateHandle h f).log = w.log := by
  unfold World.updateHandle; split <;> rfl

/-- The call `player.cancel()`. -/
theorem playerCancel_shrinks (w : World) (h : Nat) : w.Shrinks (w.playerCancel h) := by
  have h1 := updateHandle_shrinks w h (fun x => { x with player := some Player.idle })
    (fun x hx => hx)
  have h2 := log_shrinks (w.updateHandle h (fun x => { x with player := some Player.idle }))
    [Act.playerCancel h]
  rw [updateHandle_log] at h2
  exact shrinks_trans h1 h2

/-- The first part of `cancel()`: the flag `cancelled` and the log entry. -/
theorem cancel_mark_shrinks (w : World) (h : Nat) :
    w.Shrinks { w.updateHandle h (fun x => { x with cancelled := true }) with
      log := w.log ++ [Act.cancelCalled h] } := by
  have h1 := updateHandle_shrinks w h (fun x => { x with cancelled := true })
    (fun x hx => by simp [Handle.active] at hx)
  have h2 := log_shrinks (w.updateHandle h (fun x => { x with cancelled := true }))
    [Act.cancelCalled h]
  rw [updateHandle_log] at h2
  exact shrinks_trans h1 h2

/-- After the first part of `cancel()` the handle is not active. -/
theorem cancel_mark_inactive (w : World) (h : Nat) :
    World.isActive { w.updateHandle h (fun x => { x with cancelled := true }) with
      log := w.log ++ [Act.cancelCalled h] } h = false := by
  have e := isActive_updateHandle w h (fun x => { x with cancelled := true }) h
  simp only [if_true] at e
  have e2 : World.isActive { w.updateHandle h (fun x => { x with cancelled := true }) with
      log := w.log ++ [Act.cancelCalled h] } h =
      (w.updateHandle h (fun x => { x with cancelled := true })).isActive h := rfl
  rw [e2, e]
  cases w.handles.get? h with
  | none => rfl
  | some x => simp [Handle.active]

/-- The rest of `cancel()` after the flag is set: style writes and `player.cancel()`. -/
theorem cancel_rest_shrinks (w1 : World) (h : Nat) (hd : Handle) :
    w1.Shrinks
      (match hd.player with
       | some _ =>
         World.playerCancel
           (if w1.attached then
             hd.properties.foldl (fun (u : World) kp => u.css kp.1 (some (u.getCss kp.1))) w1
           else w1) h
       | none =>
         (if w1.attached then
           hd.properties.foldl (fun (u : World) kp => u.css kp.1 (some (u.getCss kp.1))) w1
         else w1)) := by
  have h2 : w1.Shrinks (if w1.attached then
      hd.properties.foldl (fun (u : World) kp => u.css kp.1 (some (u.getCss kp.1))) w1
      else w1) := by
    split_ifs
    · exact foldl_shrinks _ (fun u kp => css_shrinks u _ _) _ w1
    · exact shrinks_refl w1
  cases hd.player with
  | none => exact h2
  | some _ => exact shrinks_trans h2 (playerCancel_shrinks _ h)

/-- The method `cancel()` makes no handle active. -/
theorem cancel_shrinks (w : World) (h : Nat) : w.Shrinks (w.cancel h) := by
  unfold World.cancel
  cases hx : w.handles.get? h with
  | none => exact shrinks_refl w
  | some hd => exact shrinks_trans (cancel_mark_shrinks w h) (cancel_rest_shrinks _ h hd)

/-- After `cancel()` the handle is not active. -/
theorem cancel_inactive (w : World) (h : Nat) : (w.cancel h).isActive h = false := by
  unfold World.cancel
  cases hx : w.handles.get? h with
  | none =>
    simp only [List.get?_eq_getElem?] at hx
    simp [World.isActive, hx]
  | some hd =>
    have h1 := cancel_rest_shrinks
      { w.updateHandle h (fun x => { x with cancelled := true }) with
        log := w.log ++ [Act.cancelCalled h] } h hd
    have h2 := cancel_mark_inactive w h
    cases hc : World.isActive _ h with
    | false => rfl
    | true => rw [h1.2.2.2.2.1 h hc] at h2; cases h2

/-- The first thing `cancel()` of an existing handle does is the log entry of the call. -/
theorem cancel_log (w : World) (h : Nat) (hd : Handle) (hx : w.handles.get? h = some hd) :
    ∃ rest, (w.cancel h).log = w.log ++ Act.cancelCalled h :: rest := by
  unfold World.cancel
  rw [hx]
  obtain ⟨rest, hr⟩ := (cancel_rest_shrinks
      { w.updateHandle h (fun x => { x with cancelled := true }) with
        log := w.log ++ [Act.cancelCalled h] } h hd).2.2.2.2.2
  exact ⟨rest, by rw [hr]; simp⟩

/-- The delayed start makes no handle active. -/
theorem startPlayer_shrinks (w : World) (h : Nat) : w.Shrinks (w.startPlayer h) := by
  unfold World.startPlayer
  cases hx : w.handles.get? h with
  | none => exact shrinks_refl w
  | some hd =>
    simp only
    split_ifs
    · exact shrinks_refl w
    · have h1 := updateHandle_shrinks w h (fun x => { x with player := some Player.running })
        (fun x hx => hx)
      have h2 := log_shrinks (w.updateHandle h (fun x => { x with player := some Player.running }))
        [Act.animateCall h]
      rw [updateHandle_log] at h2
      exact shrinks_trans h1 h2

/-- A callback registered with `then` makes no handle active. -/
theorem runThen_shrinks (w : World) (t : Then) : w.Shrinks (w.runThen t) := by
  cases t with
  | hide => exact shrinks_of_handles _ _ rfl rfl rfl rfl ⟨[Act.hide], rfl⟩
  | remove => exact shrinks_of_handles _ _ rfl rfl rfl rfl ⟨[Act.remove], rfl⟩
  | clearDash => exact css_shrinks w _ _

/-- The finish handler after its style writes: resolve, `player.cancel()`, callbacks. -/
theorem onfinish_rest_shrinks (w1 : World) (h : Nat) (hd : Handle) :
    w1.Shrinks
      (if hd.deferred = Signal.pending then
        hd.thens.foldl World.runThen
          ((w1.updateHandle h (fun x => { x with deferred := x.deferred.resolve })).playerCancel h)
      else (w1.updateHandle h (fun x => { x with deferred := x.deferred.resolve })).playerCancel h)
    := by
  have h2 := updateHandle_shrinks w1 h (fun x => { x with deferred := x.deferred.resolve })
    (fun x hx => by
      cases hdx : x.deferred <;> simp_all [Handle.active, Signal.resolve])
  have h3 := playerCancel_shrinks
    (w1.updateHandle h (fun x => { x with deferred := x.deferred.resolve })) h
  by_cases hp : hd.deferred = Signal.pending
  · rw [if_pos hp]
    exact shrinks_trans (shrinks_trans h2 h3) (foldl_shrinks _ runThen_shrinks _ _)
  · rw [if_neg hp]
    exact shrinks_trans h2 h3

/-- The finish handler makes no handle active. -/
theorem onfinish_shrinks (w : World) (h : Nat) : w.Shrinks (w.onfinish h) := by
  unfold World.onfinish
  cases hx : w.handles.get? h with
  | none => exact shrinks_refl w
  | some hd =>
    have h1 : w.Shrinks (if w.attached then
        hd.properties.foldl
          (fun (u : World) kp =>
            u.css kp.1 (if kp.1 = "height" then hd.oldHeight else lookup hd.target kp.1)) w
        else w) := by
      split_ifs
      · exact foldl_shrinks _ (fun u kp => css_shrinks u _ _) _ w
      · exact shrinks_refl w
    exact shrinks_trans h1 (onfinish_rest_shrinks _ h hd)

/-- The `forEach` of `transition` makes no handle active. -/
theorem transitionProp_shrinks (dl : ℚ) (props : List (String × PropVal)) :
    ∀ acc : World × List (String × String) × List (String × String),
      acc.1.Shrinks (props.foldl (transitionProp dl) acc).1 := by
  induction props with
  | nil => exact fun acc => shrinks_refl _
  | cons kp rest ih =>
    intro acc
    have h1 : acc.1.Shrinks (transitionProp dl acc kp).1 := by
      unfold transitionProp
      simp only
      split_ifs
      · exact css_shrinks _ _ _
      · exact shrinks_refl _
    exact shrinks_trans h1 (ih _)

/-- Whether a handle is active after a new active closure got the next free name. -/
theorem isActive_push (w : World) (hd : Handle) (ha : hd.active = true) (h : Nat) :
    World.isActive { w with handles := w.handles ++ [hd] } h = true ↔
      h = w.handles.length ∨ w.isActive h = true := by
  unfold World.isActive
  simp only [List.get?_eq_getElem?]
  rcases Nat.lt_trichotomy h w.handles.length with hlt | heq | hgt
  · rw [List.getElem?_append_left hlt]
    constructor
    · exact fun x => Or.inr x
    · rintro (e | e)
      · omega
      · exact e
  · subst heq
    simp [ha]
  · rw [List.getElem?_eq_none (by simp; omega), List.getElem?_eq_none (by omega)]
    constructor
    · intro x; cases x
    · rintro (e | e)
      · omega
      · cases e

/-- With a delay, `delay` queues the start. -/
theorem delay_pos (w : World) (n : Nat) (dl : ℚ) (h : dl ≠ 0) :
    w.delay n dl = { w with timers := w.timers ++ [Timer.start n] } := by
  unfold World.delay; rw [if_pos h]

/-- Without a delay, `delay` starts the player. -/
theorem delay_zero (w : World) (n : Nat) (dl : ℚ) (h : ¬ dl ≠ 0) :
    w.delay n dl = w.startPlayer n := by
  unfold World.delay; rw [if_neg h]

/-- What the end of `transition` does: the gate and the slot stay, one slot timer is
added, for the new handle, and the only handle that gets active is the new one. -/
theorem launch_effect (w : World) (hd : Handle) (dl : ℚ) (ha : hd.active = true) :
    (w.launch hd dl).isReady = w.isReady ∧ (w.launch hd dl).animation = w.animation ∧
      (∀ x, Timer.setSlot x ∈ (w.launch hd dl).timers ↔
        (Timer.setSlot x ∈ w.timers ∨ x = w.handles.length)) ∧
      (∀ h, (w.launch hd dl).isActive h = true → h = w.handles.length ∨ w.isActive h = true) ∧
      ∃ rest, (w.launch hd dl).log = w.log ++ rest := by
  unfold World.launch
  by_cases hdl : dl ≠ 0
  · simp only [delay_pos _ _ _ hdl]
    refine ⟨by trivial, by trivial, fun x => ?_, fun h hh => ?_, [], by simp⟩
    · simp
    · exact (isActive_push w hd ha h).mp hh
  · simp only [delay_zero _ _ _ hdl]
    obtain ⟨a1, a2, a3, _, a5, a6⟩ :=
      startPlayer_shrinks { w with handles := w.handles ++ [hd] } w.handles.length
    refine ⟨a1, a2, fun x => ?_, fun h hh => ?_, a6⟩
    · simp only [List.mem_append, List.mem_singleton, Timer.setSlot.injEq]
      rw [a3]
    · exact (isActive_push w hd ha h).mp (a5 h hh)

/-- The supersession step of `transition`: cancelling the handle in the slot. -/
theorem supersede_effect (w : World) :
    w.Shrinks (match w.animation with
      | some prev => w.cancel prev
      | none => w) ∧
    (∀ h, World.isActive (match w.animation with
        | some prev => w.cancel prev
        | none => w) h = true → w.isActive h = true ∧ w.animation ≠ some h) ∧
    (∀ prev hd, w.animation = some prev → w.handles.get? prev = some hd →
      ∃ rest, World.log (match w.animation with
        | some prev => w.cancel prev
        | none => w) = w.log ++ Act.cancelCalled prev :: rest) := by
  cases ha : w.animation with
  | none =>
    refine ⟨shrinks_refl w, fun h hh => ⟨hh, by simp⟩, fun prev hd hp _ => by cases hp⟩
  | some p =>
    refine ⟨cancel_shrinks w p, fun h hh => ⟨(cancel_shrinks w p).2.2.2.2.1 h hh, ?_⟩, ?_⟩
    · intro e
      cases e
      rw [cancel_inactive] at hh
      cases hh
    · intro prev hd hp hx
      cases hp
      exact cancel_log w p hd hx

/-- What a `transition` call past the readiness gate does to the slot machinery: gate and
slot stay, one slot timer is added, for the new handle; a handle active afterwards is the
new one or was active before and not in the slot; and when the slot held a handle, the
first thing logged is the call of its `cancel()`. -/
theorem transition_effect (w : World) (props : List (String × PropVal)) (d dl : ℚ)
    (e : String) (hr : w.isReady = true) :
    (transition w props d dl e).1.isReady = true ∧
      (transition w props d dl e).1.animation = w.animation ∧
      (∀ x, Timer.setSlot x ∈ (transition w props d dl e).1.timers ↔
        (Timer.setSlot x ∈ w.timers ∨ x = w.handles.length)) ∧
      (∀ h, (transition w props d dl e).1.isActive h = true →
        h = w.handles.length ∨ (w.isActive h = true ∧ w.animation ≠ some h)) ∧
      (∀ prev hd, w.animation = some prev → w.handles.get? prev = some hd →
        ∃ rest, (transition w props d dl e).1.log = w.log ++ Act.cancelCalled prev :: rest) := by
  obtain ⟨s1, a1, l1⟩ := supersede_effect w
  have key : ∀ (w2 : World) (hd0 : Handle), hd0.active = true →
      World.Shrinks (match w.animation with
        | some prev => w.cancel prev
        | none => w) w2 →
      (w2.launch hd0 dl).isReady = true ∧
      (w2.launch hd0 dl).animation = w.animation ∧
      (∀ x, Timer.setSlot x ∈ (w2.launch hd0 dl).timers ↔
        (Timer.setSlot x ∈ w.timers ∨ x = w.handles.length)) ∧
      (∀ h, (w2.launch hd0 dl).isActive h = true →
        h = w.handles.length ∨ (w.isActive h = true ∧ w.animation ≠ some h)) ∧
      (∀ prev hd, w.animation = some prev → w.handles.get? prev = some hd →
        ∃ rest, (w2.launch hd0 dl).log = w.log ++ Act.cancelCalled prev :: rest) := by
    intro w2 hd0 hact s2
    obtain ⟨b1, b2, b3, b4, b5, r2, b6⟩ := shrinks_trans s1 s2
    obtain ⟨c1, c2, c3, c4, r3, c5⟩ := launch_effect w2 hd0 dl hact
    refine ⟨by rw [c1, b1, hr], by rw [c2, b2], fun x => ?_, fun h hh => ?_, ?_⟩
    · rw [c3 x, b3, b4]
    · rcases c4 h hh with e1 | e1
      · exact Or.inl (by rw [e1, b4])
      · exact Or.inr (a1 h (s2.2.2.2.2.1 h e1))
    · intro prev hd hp hx
      obtain ⟨r1, e1⟩ := l1 prev hd hp hx
      obtain ⟨r2', e2⟩ := s2.2.2.2.2.2
      refine ⟨r1 ++ r2' ++ r3, ?_⟩
      rw [c5, e2, e1]
      simp
  simp only [transition, hr, Bool.not_true, Bool.false_eq_true, if_false]
  exact key _ _ rfl (transitionProp_shrinks dl props (_, [], []))

/-- No slot timer is pending exactly when no timer of the list is one. -/
theorem slotPending_false (w : World) (h : w.slotPending = false) (x : Nat) :
    Timer.setSlot x ∉ w.timers := by
  intro hx
  unfold World.slotPending at h
  rw [List.any_eq_false] at h
  exact h _ hx rfl

/-- The invariant survives every change that makes no handle active. -/
theorem inv_of_shrinks (w w' : World) (hinv : w.Inv) (hs : w.Shrinks w') : w'.Inv := by
  obtain ⟨i1, i2, i3⟩ := hinv
  obtain ⟨s1, s2, s3, _, s5, _⟩ := hs
  refine ⟨by rw [s1, i1], fun h hh => ?_, fun h h' hm hh => ?_⟩
  · rw [s2, s3]; exact i2 h (s5 h hh)
  · rw [s3] at hm; exact i3 h h' hm (s5 h' hh)

/-- An element that stays in a list when another position is erased. -/
theorem mem_eraseIdx_of_ne {α : Type} (l : List α) (i : Nat) (x y : α) (hx : x ∈ l)
    (hy : l.get? i = some y) (hne : x ≠ y) : x ∈ l.eraseIdx i := by
  rw [List.mem_eraseIdx_iff_getElem?]
  obtain ⟨j, hj⟩ := List.getElem?_of_mem hx
  refine ⟨j, ?_, hj⟩
  intro e
  subst e
  rw [List.get?_eq_getElem?] at hy
  rw [hy] at hj
  exact hne (Option.some.inj hj).symm

/-- Every step keeps the invariant, when a `transition` call is made with no slot timer
pending. -/
theorem tStep_inv (w : World) (st : TStep) (hinv : w.Inv)
    (hsp : ∀ p d dl e, st = TStep.transition p d dl e → w.slotPending = false) :
    (tStep w st).Inv := by
  cases st with
  | transition p d dl e =>
    have hno := slotPending_false w (hsp p d dl e rfl)
    obtain ⟨i1, i2, i3⟩ := hinv
    obtain ⟨t1, t2, t3, t4, _⟩ := transition_effect w p d dl e i1
    have hnew : ∀ h, (transition w p d dl e).1.isActive h = true → h = w.handles.length := by
      intro h hh
      rcases t4 h hh with e1 | ⟨e1, e2⟩
      · exact e1
      · rcases i2 h e1 with e3 | e3
        · exact absurd e3 e2
        · exact absurd e3 (hno h)
    refine ⟨t1, fun h hh => Or.inr ?_, fun h h' hm hh => ?_⟩
    · exact (t3 h).mpr (Or.inr (hnew h hh))
    · rcases (t3 h).mp hm with e1 | e1
      · exact absurd e1 (hno h)
      · rw [e1]; exact hnew h' hh
  | timer i =>
    obtain ⟨i1, i2, i3⟩ := hinv
    simp only [tStep]
    cases hg : w.timers.get? i with
    | none => exact ⟨i1, i2, i3⟩
    | some t =>
      cases t with
      | start h0 =>
        have hbase : World.Inv { w with timers := w.timers.eraseIdx i } := by
          refine ⟨i1, fun h hh => ?_, fun h h' hm hh => ?_⟩
          · rcases i2 h hh with e | e
            · exact Or.inl e
            · exact Or.inr (mem_eraseIdx_of_ne _ i _ _ e hg (by simp))
          · exact i3 h h' (List.mem_of_mem_eraseIdx hm) hh
        exact inv_of_shrinks _ _ hbase (startPlayer_shrinks _ h0)
      | setSlot h0 =>
        have hm0 : Timer.setSlot h0 ∈ w.timers := List.get?_mem hg
        refine ⟨i1, fun h hh => Or.inl ?_, fun h h' hm hh => ?_⟩
        · show some h0 = some h
          rw [i3 h0 h hm0 hh]
        · exact i3 h h' (List.mem_of_mem_eraseIdx hm) hh
  | finish h =>
    simp only [tStep]
    cases hg : w.handles.get? h with
    | none => exact hinv
    | some hd =>
      simp only
      split_ifs
      · exact inv_of_shrinks _ _ hinv (onfinish_shrinks w h)
      · exact hinv
  | cancel h => exact inv_of_shrinks _ _ hinv (cancel_shrinks w h)
  | ready =>
    obtain ⟨_, i2, i3⟩ := hinv
    exact ⟨rfl, i2, i3⟩

/-- A spaced schedule keeps the invariant. -/
theorem tRun_inv (steps : List TStep) :
    ∀ w : World, w.Inv → spaced w steps = true → (tRun w steps).Inv := by
  induction steps with
  | nil => exact fun w h _ => h
  | cons st rest ih =>
    intro w hinv hs
    simp only [spaced, Bool.and_eq_true] at hs
    refine ih (tStep w st) (tStep_inv w st hinv ?_) hs.2
    intro p d dl e he
    have h1 := hs.1
    rw [he] at h1
    simpa using h1

/-- Under the invariant at most one handle is active. -/
theorem inv_at_most_one (w : World) (hinv : w.Inv) : w.activeHandles.length ≤ 1 := by
  obtain ⟨_, i2, i3⟩ := hinv
  have hall : ∀ a b, a ∈ w.activeHandles → b ∈ w.activeHandles → a = b := by
    intro a b ha hb
    have ha' : w.isActive a = true := (List.mem_filter.mp ha).2
    have hb' : w.isActive b = true := (List.mem_filter.mp hb).2
    by_cases hx : ∃ x, Timer.setSlot x ∈ w.timers
    · obtain ⟨x, hx⟩ := hx
      rw [i3 x a hx ha', i3 x b hx hb']
    · have ea : w.animation = some a := by
        rcases i2 a ha' with e | e
        · exact e
        · exact absurd ⟨a, e⟩ hx
      have eb : w.animation = some b := by
        rcases i2 b hb' with e | e
        · exact e
        · exact absurd ⟨b, e⟩ hx
      rw [ea] at eb
      exact Option.some.inj eb
  have hnd : w.activeHandles.Nodup := (List.nodup_range _).filter _
  cases hl : w.activeHandles with
  | nil => simp
  | cons a t =>
    cases t with
    | nil => simp
    | cons b t2 =>
      rw [hl] at hall hnd
      have : a = b := hall a b (by simp) (by simp)
      subst this
      simp at hnd

/-- A fresh element past the readiness gate satisfies the invariant. -/
theorem fresh_inv (tr sl ch : String) : (World.fresh true tr sl ch).Inv := by
  refine ⟨rfl, fun h hh => ?_, fun h h' hm _ => ?_⟩
  · simp [World.isActive, World.fresh] at hh
  · simp [World.fresh] at hm

/-- Every beginning of a spaced schedule is spaced. -/
theorem spaced_take (steps : List TStep) :
    ∀ (w : World) (n : Nat), spaced w steps = true → spaced w (steps.take n) = true := by
  induction steps with
  | nil => intro w n h; simpa using h
  | cons st rest ih =>
    intro w n h
    cases n with
    | zero => rfl
    | succ m =>
      simp only [spaced, Bool.and_eq_true, List.take_succ_cons] at h ⊢
      exact ⟨h.1, ih _ m h.2⟩

/-- C6 (as amended): past the readiness gate, in every schedule of transition calls,
timer firings, finish events and cancellations in which each `transition` call on the
element is made when no slot timer is pending (the turn that started the previous
transition has ended and its `setTimeout` callback has stored the handle in
`$el._data._animation`): at any time at most one transition handle of the element is
active, and a `transition` call made while an earlier handle is active begins by invoking
that handle's `cancel()`, before anything else it does to the element, and leaves that
handle cancelled. -/
theorem transition_supersedes_when_spaced (w0 : World) (steps : List TStep) (hinv : w0.Inv)
    (hs : spaced w0 steps = true) :
    (∀ n, (tRun w0 (steps.take n)).activeHandles.length ≤ 1) ∧
    ∀ (props : List (String × PropVal)) (d dl : ℚ) (e : String) (h : Nat),
      (tRun w0 steps).slotPending = false → (tRun w0 steps).isActive h = true →
      (∃ rest, (transition (tRun w0 steps) props d dl e).1.log =
        (tRun w0 steps).log ++ Act.cancelCalled h :: rest) ∧
      (transition (tRun w0 steps) props d dl e).1.isActive h = false := by
  refine ⟨fun n => inv_at_most_one _ (tRun_inv _ w0 hinv (spaced_take steps w0 n hs)), ?_⟩
  intro props d dl e h hno hact
  have hi := tRun_inv steps w0 hinv hs
  obtain ⟨i1, i2, _⟩ := hi
  generalize tRun w0 steps = w at *
  have hslot : w.animation = some h := by
    rcases i2 h hact with e1 | e1
    · exact e1
    · exact absurd e1 (slotPending_false w hno h)
  obtain ⟨_, _, _, t4, t5⟩ := transition_effect w props d dl e i1
  have hex : ∃ hd, w.handles.get? h = some hd := by
    unfold World.isActive at hact
    cases hg : w.handles.get? h with
    | none => rw [hg] at hact; cases hact
    | some hd => exact ⟨hd, rfl⟩
  obtain ⟨hd, hg⟩ := hex
  refine ⟨t5 h hd hslot hg, ?_⟩
  cases hc : (transition w props d dl e).1.isActive h with
  | false => rfl
  | true =>
    rcases t4 h hc with e1 | ⟨_, e2⟩
    · rw [List.get?_eq_getElem?] at hg
      have := (List.getElem?_eq_some.mp hg).1
      omega
    · exact absurd hslot e2

/-- Witness of C6 (as amended): a transition, the firing of its slot timer, then a second
transition on the same element: the first handle is cancelled and only the second is
active. -/
theorem transition_supersedes_when_spaced_witness :
    spaced (World.fresh true "" "" "")
      [.transition [("opacity", .pair "0" "1")] 500 0 "ease-in-out", .timer 0,
        .transition [("opacity", .pair "1" "0")] 400 0 "ease-in-out"] = true ∧
    (tRun (World.fresh true "" "" "")
      [.transition [("opacity", .pair "0" "1")] 500 0 "ease-in-out", .timer 0,
        .transition [("opacity", .pair "1" "0")] 400 0 "ease-in-out"]).activeHandles = [1] ∧
    (tRun (World.fresh true "" "" "")
      [.transition [("opacity", .pair "0" "1")] 500 0 "ease-in-out", .timer 0,
        .transition [("opacity", .pair "1" "0")] 400 0 "ease-in-out"]).log =
      [Act.animateCall 0, Act.cancelCalled 0, Act.css "opacity" "", Act.playerCancel 0,
        Act.animateCall 1] ∧
    ∀ n, (tRun (World.fresh true "" "" "")
      ([TStep.transition [("opacity", .pair "0" "1")] 500 0 "ease-in-out", .timer 0,
        .transition [("opacity", .pair "1" "0")] 400 0 "ease-in-out"].take n)).activeHandles.length
        ≤ 1 :=
  ⟨by decide!, by decide!, by decide!,
    (transition_supersedes_when_spaced (World.fresh true "" "" "") _ (fresh_inv "" "" "")
      (by decide!)).1⟩

end Boost
